import Mathlib

/-!
Verification development for the city model building-consolidation engine.

The Python source under verification lives in `src/lib/`:
* `geometry.py` (`GeometryUtils`): centroid, Euclidean distance, shoelace area;
* `style/artistic_effects.py` (`ArtisticEffects`): angular-sort hull with optional
  detail points and per-style coordinate variation;
* `style/building_merger.py` (`BuildingMerger`): distance-based cluster merger;
* `style/block_combiner.py` (`BlockCombiner`): area-threshold merger, barrier
  union construction and roof-style selection;
* `feature_processor/barrier_processor.py` / `feature_processor.py`:
  the barrier union builder used by the distance-mode pipeline.

Numbers are embedded as rationals (`ℚ`).  The Python code calls into the
external `shapely` geometry library for polygon union / buffer / intersection;
those external calls are embedded as an explicit geometry-kernel parameter
(`GeoKernel`) or, where only a Boolean outcome is consumed, as a Boolean-valued
function parameter.  Everything implemented inside the repository itself
(centroid, distance comparison, shoelace area, angular sorting, the merge loops,
the height accumulation, the roof-parameter updates) is embedded concretely.
-/

/-- A projected 2-D model-space point, as the `[x, y]` lists of the source. -/
abbrev Pt := ℚ × ℚ

/-- A building record as handed to the distance-based merger: the dict keys
`coords`, `height`, and (with Python `dict.get` defaults, cf.
`scad_generator.py` reading `building.get ("is_cluster", False)`)
`is_cluster` and `size`. -/
structure Building where
  coords : List Pt
  height : ℚ
  isCluster : Bool := false
  size : ℕ := 1
deriving DecidableEq, Repr, Inhabited

namespace GeometryUtils

/-- Embeds `GeometryUtils.calculate_centroid`: arithmetic mean of the points.
The source raises `ValueError` on an empty list; the embedding returns the
junk value `(0, 0)` there (division by zero in `ℚ`), and every use below is
on nonempty rings. -/
def calculate_centroid (points : List Pt) : Pt :=
  ((points.map Prod.fst).sum / points.length, (points.map Prod.snd).sum / points.length)

/-- Squared Euclidean distance between two points.  The source function
`calculate_distance` returns `sqrt` of this value. -/
def calculate_distance_sq (p q : Pt) : ℚ :=
  (q.1 - p.1) ^ 2 + (q.2 - p.2) ^ 2

/-- Embeds the comparison `calculate_distance p q < d` performed by the mergers.
For every real `d`, `Real.sqrt s < d ↔ 0 < d ∧ s < d ^ 2` when `0 ≤ s`
(see `distLt_spec` below), so the square-free comparison is exact. -/
def distLt (p q : Pt) (d : ℚ) : Bool :=
  decide (0 < d) && decide (calculate_distance_sq p q < d ^ 2)

/-- Justification that `distLt` is exactly the source comparison
`sqrt (squared distance) < d` interpreted over the reals. -/
theorem distLt_spec (p q : Pt) (d : ℚ) :
    distLt p q d = true ↔
      Real.sqrt (calculate_distance_sq p q : ℝ) < (d : ℝ) := by
  simp only [distLt, Bool.and_eq_true, decide_eq_true_eq]
  constructor
  · rintro ⟨hd, hlt⟩
    have hd' : (0 : ℝ) < (d : ℝ) := by exact_mod_cast hd
    rw [Real.sqrt_lt' hd']
    exact_mod_cast hlt
  · intro h
    have hd' : (0 : ℝ) < (d : ℝ) := lt_of_le_of_lt (Real.sqrt_nonneg _) h
    refine ⟨by exact_mod_cast hd', ?_⟩
    have := (Real.sqrt_lt' hd').mp h
    exact_mod_cast this

/-- Signed double shoelace sum of `calculate_polygon_area`, accumulated
exactly as the source loop does: `j` starts at the last index and then trails
`i` by one, adding `(x_j + x_i) * (y_j - y_i)`. -/
def shoelaceSum : List Pt → ℚ
  | [] => 0
  | p :: ps =>
      let pts := p :: ps
      let prevs := pts.getLastD (0, 0) :: (p :: ps).dropLast
      (List.zip prevs pts).foldl
        (fun acc pr => acc + (pr.1.1 + pr.2.1) * (pr.1.2 - pr.2.2)) 0

/-- Embeds `GeometryUtils.calculate_polygon_area` (shoelace formula with
absolute value, halved).  The source raises on fewer than 3 points; the
embedding extends it by the same formula, and the theorems below only apply
it to rings of length at least 3. -/
def calculate_polygon_area (points : List Pt) : ℚ :=
  |shoelaceSum points| / 2

end GeometryUtils

namespace ArtisticEffects

/-- Angular class of a vector, ordering the codomain of `atan2`:
`atan2 y x` lies in `(-π, 0)` for `y < 0` (class 0), equals `0` for
`y = 0 ∧ 0 ≤ x` (class 1, including the zero vector), lies in `(0, π)` for
`0 < y` (class 2), and equals `π` for `y = 0 ∧ x < 0` (class 3). -/
def angClass (v : Pt) : ℕ :=
  if v.2 < 0 then 0
  else if v.2 = 0 ∧ 0 ≤ v.1 then 1
  else if 0 < v.2 then 2
  else 3

/-- Cross product of two vectors. -/
def cross2 (u v : Pt) : ℚ := u.1 * v.2 - u.2 * v.1

/-- Decides `atan2 (p - c) < atan2 (q - c)` exactly: distinct angular classes
compare by class; within the two open half-planes (classes 0 and 2, each of
angular width `π`) the strict order coincides with a positive cross product;
within classes 1 and 3 all angles are equal. -/
def angLt (c p q : Pt) : Bool :=
  let u : Pt := (p.1 - c.1, p.2 - c.2)
  let v : Pt := (q.1 - c.1, q.2 - c.2)
  if angClass u ≠ angClass v then decide (angClass u < angClass v)
  else decide ((angClass u = 0 ∨ angClass u = 2) ∧ 0 < cross2 u v)

/-- Stable insertion used to embed the (stable) Python `sorted` with key
`atan2 (y − c_y) (x − c_x)`: `x` is placed before the first element strictly
greater than it, so elements of equal key keep their original order. -/
def insertByAngle (c x : Pt) : List Pt → List Pt
  | [] => [x]
  | y :: ys => if angLt c y x then y :: insertByAngle c x ys else x :: y :: ys

/-- Embeds `ArtisticEffects._sort_points_by_angle` (stable sort by `atan2`
around `c`). -/
def sortPointsByAngle (points : List Pt) (c : Pt) : List Pt :=
  match points with
  | [] => []
  | x :: xs => insertByAngle c x (sortPointsByAngle xs c)

/-- Oracle for the floating-point trigonometry of `ArtisticEffects` that the
repository delegates to `math.sin` / `math.cos` / `math.sqrt`:
`detail` models the list of points `_add_detail_points` appends between two
hull points (interpolation count `int (detail_level * dist / cluster_size)`
and sinusoidal offsets), `varyModern` and `varyClassic` model the two
non-identity branches of `_add_artistic_variation`. -/
structure HullOracle where
  detail : Pt → Pt → List Pt
  varyModern : List Pt → List Pt
  varyClassic : List Pt → List Pt

/-- Style-configuration record: the `style` dict of the style manager. -/
structure StyleCfg where
  mergeDistance : ℚ
  clusterSize : ℚ
  heightVariance : ℚ
  detailLevel : ℚ
  artisticStyle : String
deriving Repr, Inhabited

/-- Embeds `ArtisticEffects._generate_hull_points`: appends each sorted point
in turn and, when `detail_level > 0.5`, the detail points between it and its
cyclic successor. -/
def generateHullPoints (cfg : StyleCfg) (O : HullOracle) (sorted : List Pt) : List Pt :=
  (List.range sorted.length).foldl
    (fun hull i =>
      let p1 := sorted.getD i (0, 0)
      let p2 := sorted.getD ((i + 1) % sorted.length) (0, 0)
      hull ++ [p1] ++ (if (1 : ℚ) / 2 < cfg.detailLevel then O.detail p1 p2 else []))
    []

/-- Embeds `ArtisticEffects._add_artistic_variation`: sinusoidal per-vertex
offsets for the modern style, radial offsets for the classic style, identity
otherwise (minimal or block-combine). -/
def addArtisticVariation (cfg : StyleCfg) (O : HullOracle) (coords : List Pt) : List Pt :=
  if cfg.artisticStyle = "modern" then O.varyModern coords
  else if cfg.artisticStyle = "classic" then O.varyClassic coords
  else coords

/-- Embeds `ArtisticEffects.create_artistic_hull`. -/
def create_artistic_hull (cfg : StyleCfg) (O : HullOracle) (points : List Pt) : List Pt :=
  if points.length < 3 then points
  else
    let center := GeometryUtils.calculate_centroid points
    let sorted := sortPointsByAngle points center
    let hull := generateHullPoints cfg O sorted
    addArtisticVariation cfg O hull

end ArtisticEffects

namespace BuildingMerger

open GeometryUtils ArtisticEffects

/-- Embeds `BuildingMerger._index_buildings`: `enumerate` with centroids. -/
def indexBuildings (buildings : List Building) : List (ℕ × Pt × Building) :=
  (buildings.enum).map (fun e => (e.1, calculate_centroid e.2.coords, e.2))

/-- One step of the candidate scan inside `_build_cluster`: an unvisited
building whose centroid is within `merge_dist` of the current anchor centroid
and whose connecting segment is not blocked is marked visited and pushed.
The Python `stack.append` / `stack.pop ()` pair is LIFO; the embedding uses a
cons-list with the head as the top of the stack, which realizes the same
discipline. -/
def scanStep (cur : Pt) (m : ℚ) (blocked : Pt → Pt → Bool)
    (st : List ℕ × Finset ℕ) (e : ℕ × Pt × Building) : List ℕ × Finset ℕ :=
  if e.1 ∉ st.2 ∧ distLt cur e.2.1 m ∧ blocked cur e.2.1 = false
  then (e.1 :: st.1, insert e.1 st.2)
  else st

/-- Inner `for` loop of `_build_cluster` over all indexed buildings. -/
def scanAll (idx : List (ℕ × Pt × Building)) (cur : Pt) (m : ℚ)
    (blocked : Pt → Pt → Bool) (st : List ℕ × Finset ℕ) : List ℕ × Finset ℕ :=
  idx.foldl (scanStep cur m blocked) st

/-- Index set of an indexed building list. -/
def idxSet (idx : List (ℕ × Pt × Building)) : Finset ℕ :=
  (idx.map (fun e => e.1)).toFinset

theorem scanStep_spec (cur : Pt) (m : ℚ) (blocked : Pt → Pt → Bool)
    (st : List ℕ × Finset ℕ) (e : ℕ × Pt × Building) :
    scanStep cur m blocked st e = st ∨
      (e.1 ∉ st.2 ∧
        scanStep cur m blocked st e = (e.1 :: st.1, insert e.1 st.2)) := by
  unfold scanStep
  by_cases h : e.1 ∉ st.2 ∧ distLt cur e.2.1 m ∧ blocked cur e.2.1 = false
  · right
    exact ⟨h.1, by simp [h]⟩
  · left
    simp [h]

/-- The scan preserves the termination measure
`stack length + card of the still-unvisited index set`:
each push lengthens the stack by one and removes one unvisited index. -/
theorem scanAll_measure (idx : List (ℕ × Pt × Building)) (cur : Pt) (m : ℚ)
    (blocked : Pt → Pt → Bool) (st : List ℕ × Finset ℕ) (S : Finset ℕ)
    (hidx : idxSet idx ⊆ S) :
    (scanAll idx cur m blocked st).1.length +
        (S \ (scanAll idx cur m blocked st).2).card ≤
      st.1.length + (S \ st.2).card := by
  induction idx generalizing st with
  | nil => simp [scanAll]
  | cons e es ih =>
      have hsub : idxSet es ⊆ S := by
        intro a ha
        apply hidx
        simp only [idxSet, List.map_cons, List.toFinset_cons, Finset.mem_insert] at *
        exact Or.inr ha
      have he : e.1 ∈ S := by
        apply hidx
        simp [idxSet]
      have hscan : scanAll (e :: es) cur m blocked st =
          scanAll es cur m blocked (scanStep cur m blocked st e) := by
        simp [scanAll]
      rcases scanStep_spec cur m blocked st e with h | ⟨hmem, h⟩
      · rw [hscan, h]
        exact ih st hsub
      · rw [hscan, h]
        have hih := ih (e.1 :: st.1, insert e.1 st.2) hsub
        have hcard : (S \ insert e.1 st.2).card + 1 = (S \ st.2).card := by
          have hin : e.1 ∈ S \ st.2 := Finset.mem_sdiff.mpr ⟨he, hmem⟩
          have hrw : S \ insert e.1 st.2 = (S \ st.2).erase e.1 := by
            ext a
            simp only [Finset.mem_sdiff, Finset.mem_insert, Finset.mem_erase]
            tauto
          rw [hrw, Finset.card_erase_of_mem hin]
          have : 0 < (S \ st.2).card := Finset.card_pos.mpr ⟨e.1, hin⟩
          omega
        simp only [List.length_cons] at hih
        omega

/-- Embeds the `while stack` loop of `BuildingMerger._build_cluster`:
pop the top index, append its building to the cluster, then scan all
buildings for unvisited in-range unblocked candidates. -/
def buildClusterAux (idx : List (ℕ × Pt × Building)) (m : ℚ)
    (blocked : Pt → Pt → Bool) :
    List ℕ → Finset ℕ → List Building → List Building × Finset ℕ
  | [], visited, cluster => (cluster, visited)
  | i :: rest, visited, cluster =>
      let e := idx.getD i (0, (0, 0), default)
      buildClusterAux idx m blocked
        (scanAll idx e.2.1 m blocked (rest, visited)).1
        (scanAll idx e.2.1 m blocked (rest, visited)).2
        (cluster ++ [e.2.2])
termination_by stack visited _ => stack.length + ((idxSet idx) \ visited).card
decreasing_by
  have := scanAll_measure idx (idx.getD i (0, (0, 0), default)).2.1 m blocked
    (rest, visited) (idxSet idx) (by intro a ha; exact ha)
  dsimp only at this ⊢
  simp only [List.length_cons]
  omega

/-- Embeds `BuildingMerger._build_cluster`. -/
def build_cluster (startIdx : ℕ) (idx : List (ℕ × Pt × Building))
    (visited : Finset ℕ) (m : ℚ) (blocked : Pt → Pt → Bool) :
    List Building × Finset ℕ :=
  buildClusterAux idx m blocked [startIdx] (insert startIdx visited) []

/-- Embeds `BuildingMerger._merge_cluster`: a singleton cluster passes its
building through; otherwise the heights are averaged weighted by each
member's own shoelace polygon area and the member coordinates are merged
into one artistic hull. -/
def merge_cluster (cfg : StyleCfg) (O : HullOracle) (cluster : List Building) : Building :=
  match cluster with
  | [b] => b
  | _ =>
      let acc := cluster.foldl
        (fun (a : ℚ × ℚ × List Pt) b =>
          let area := calculate_polygon_area b.coords
          (a.1 + area, a.2.1 + b.height * area, a.2.2 ++ b.coords))
        (0, 0, [])
      let avgHeight := if 0 < acc.1 then acc.2.1 / acc.1 else (cluster.headD default).height
      { coords := create_artistic_hull cfg O acc.2.2
        height := avgHeight
        isCluster := true
        size := cluster.length }

/-- Embeds `BuildingMerger._merge_by_distance`.  The shapely call
`LineString ([ptA, ptB]).intersects (barrier_union)` of `_is_blocked`
(with `None` mapped to the constantly-false function) is the `blocked`
parameter. -/
def merge_by_distance (cfg : StyleCfg) (O : HullOracle)
    (buildings : List Building) (blocked : Pt → Pt → Bool) : List Building :=
  let mergeDist := cfg.mergeDistance
  if mergeDist ≤ 0 then buildings
  else
    let idx := indexBuildings buildings
    (idx.foldl
      (fun (st : Finset ℕ × List Building) e =>
        if e.1 ∈ st.1 then st
        else
          let r := build_cluster e.1 idx st.1 mergeDist blocked
          (r.2, st.2 ++ [merge_cluster cfg O r.1]))
      (∅, ∅)).2

end BuildingMerger

/-- The artistic merger claims quantify over the hull oracle; this trivial
instance is used by concrete witnesses. -/
def trivialOracle : ArtisticEffects.HullOracle :=
  { detail := fun _ _ => []
    varyModern := fun l => l
    varyClassic := fun l => l }

/-- A minimal-style configuration used by concrete witnesses. -/
def minimalCfg (m : ℚ) : ArtisticEffects.StyleCfg :=
  { mergeDistance := m
    clusterSize := 3
    heightVariance := 1 / 5
    detailLevel := 3 / 10
    artisticStyle := "minimal" }

/-- C5: in distance mode with `merge_distance ≤ 0` the merger is the
identity: the source returns the input list object itself, so the output has
one entry per input footprint, in order, with coordinates unchanged; every
entry reads `is_cluster = false` provided the inputs are raw footprints
(whose absent `is_cluster` key reads as `False`). -/
theorem c5_merge_distance_nonpos_identity
    (cfg : ArtisticEffects.StyleCfg) (O : ArtisticEffects.HullOracle)
    (buildings : List Building) (blocked : Pt → Pt → Bool)
    (hm : cfg.mergeDistance ≤ 0)
    (hraw : ∀ b ∈ buildings, b.isCluster = false) :
    BuildingMerger.merge_by_distance cfg O buildings blocked = buildings ∧
      (BuildingMerger.merge_by_distance cfg O buildings blocked).length =
        buildings.length ∧
      ∀ b ∈ BuildingMerger.merge_by_distance cfg O buildings blocked,
        b.isCluster = false := by
  have hid : BuildingMerger.merge_by_distance cfg O buildings blocked = buildings := by
    unfold BuildingMerger.merge_by_distance
    simp [hm]
  refine ⟨hid, by rw [hid], ?_⟩
  rw [hid]
  exact hraw

/-- Witness for C5 at a concrete input. -/
theorem c5_merge_distance_nonpos_identity_witness :
    BuildingMerger.merge_by_distance (minimalCfg 0) trivialOracle
        [{ coords := [(0, 0), (1, 0), (0, 1)], height := 4 }]
        (fun _ _ => false) =
      [{ coords := [(0, 0), (1, 0), (0, 1)], height := 4 }] :=
  (c5_merge_distance_nonpos_identity (minimalCfg 0) trivialOracle
    [{ coords := [(0, 0), (1, 0), (0, 1)], height := 4 }]
    (fun _ _ => false) (by norm_num [minimalCfg])
    (by intro b hb; simp at hb; simp [hb])).1

/-- Abstract geometry kernel: the shapely operations the block combiner
calls.  The constructors return `Option`, `none` modelling a raised shapely
exception (`LineString` raises on fewer than 2 points, `Polygon` on fewer
than 3); the remaining operations are total functions of the constructed
geometry objects. -/
structure GeoKernel (G : Type) where
  lineOf : List Pt → Option G
  polygonOf : List Pt → Option G
  isValid : G → Bool
  isEmpty : G → Bool
  area : G → ℚ
  buffer : G → ℚ → G
  distance : G → G → ℚ
  centroid : G → Pt
  union2 : G → G → G
  unionList : List G → G
  unionParts : G → G
  makeValid : G → G
  geomIsPolygon : G → Bool
  geomIsMulti : G → Bool
  largestPart : G → G
  convexHull : G → G
  exteriorRing : G → List Pt
  intersects : G → G → Bool

/-- A gathered footprint record of `_gather_all_footprints`: the polygon,
the height (with the 10.0 / 15.0 defaults already applied) and the stored
derived `area`. -/
structure Footprint (G : Type) where
  polygon : G
  height : ℚ
  area : ℚ
deriving DecidableEq, Repr

/-- An input feature record: `coords` plus the optional `height` key. -/
structure Feat where
  coords : List Pt
  height : Option ℚ := none

/-- The feature buckets consumed by the block combiner. -/
structure Features where
  buildings : List Feat := []
  industrial : List Feat := []
  roads : List Feat := []
  railways : List Feat := []
  water : List Feat := []

namespace BlockCombiner

variable {G : Type}

/-- Processing of one building-like feature inside
`BlockCombiner._gather_all_footprints`: kept only when it has at least 3
coordinates and its polygon is valid and non-empty (shapely constructs a
polygon object for any list of at least 3 numeric coordinates, so the
constructor cannot fail on the guarded path). -/
def gatherOne (K : GeoKernel G) (dflt : ℚ) (f : Feat) : Option (Footprint G) :=
  if 3 ≤ f.coords.length then
    match K.polygonOf f.coords with
    | some poly =>
        if K.isValid poly = true ∧ K.isEmpty poly = false then
          some { polygon := poly, height := f.height.getD dflt, area := K.area poly }
        else none
    | none => none
  else none

/-- Embeds `BlockCombiner._gather_all_footprints`: buildings (default height
10.0) then industrial features (default height 15.0). -/
def gather_all_footprints (K : GeoKernel G) (fs : Features) : List (Footprint G) :=
  fs.buildings.filterMap (gatherOne K 10) ++ fs.industrial.filterMap (gatherOne K 15)

/-- Embeds `BlockCombiner._create_barrier_union`: roads are buffered by
`road_width * 0.2`, water polygons by the constant `1.5`; each feature whose
construction raises is skipped by the per-feature `try/except`; an invalid
union is repaired with `make_valid`; the empty barrier list yields `None`. -/
def bcRoadGeom (K : GeoKernel G) (roadWidth : ℚ) (r : Feat) : Option G :=
  match K.lineOf r.coords with
  | some line =>
      let buffered := K.buffer line (roadWidth * (1 / 5))
      if K.isValid buffered = true ∧ K.isEmpty buffered = false then some buffered
      else none
  | none => none

/-- Per-water-feature body of `_create_barrier_union`: the polygon is kept
buffered by the constant `1.5` when valid and non-empty; a constructor
exception is caught and the feature skipped. -/
def bcWaterGeom (K : GeoKernel G) (w : Feat) : Option G :=
  match K.polygonOf w.coords with
  | some poly =>
      if K.isValid poly = true ∧ K.isEmpty poly = false then
        some (K.buffer poly (3 / 2))
      else none
  | none => none

def bc_create_barrier_union (K : GeoKernel G) (fs : Features) (roadWidth : ℚ) :
    Option G :=
  let roadGeoms := fs.roads.filterMap (bcRoadGeom K roadWidth)
  let waterGeoms := fs.water.filterMap (bcWaterGeom K)
  let barriers := roadGeoms ++ waterGeoms
  if barriers.isEmpty then none
  else
    let u := K.unionList barriers
    some (if K.isValid u = false then K.makeValid u else u)

/-- Embeds `BlockCombiner._is_blocked_by_barrier` (the `except` branch
returns `False`; a two-point segment never makes `LineString` raise, but the
embedding keeps the guard). -/
def is_blocked_by_barrier (K : GeoKernel G) (ptA ptB : Pt) (barrier : Option G) :
    Bool :=
  match barrier with
  | none => false
  | some bu =>
      match K.lineOf [ptA, ptB] with
      | some line => K.intersects line bu
      | none => false

/-- State of the growth loop of `_area_based_merge`: the member list, the
visited index set, the accumulated union and the height accumulators. -/
structure GrowState (G : Type) where
  cluster : List (Footprint G)
  visited : Finset ℕ
  clusterUnion : G
  totalArea : ℚ
  weightedHeight : ℚ

/-- One candidate test of the growth scan: an unvisited small footprint
within `merge_dist` of the accumulated union and not blocked (union centroid
to candidate centroid) is absorbed; the union is re-unioned and repaired,
the accumulators are extended, and the `growing` flag is set. -/
def absorbStep (K : GeoKernel G) (barrier : Option G) (m : ℚ)
    (st : GrowState G × Bool) (e : ℕ × Footprint G) : GrowState G × Bool :=
  if e.1 ∈ st.1.visited then st
  else if K.distance e.2.polygon st.1.clusterUnion < m ∧
        is_blocked_by_barrier K (K.centroid st.1.clusterUnion)
          (K.centroid e.2.polygon) barrier = false then
    ({ cluster := st.1.cluster ++ [e.2]
       visited := insert e.1 st.1.visited
       clusterUnion := K.makeValid (K.union2 st.1.clusterUnion e.2.polygon)
       totalArea := st.1.totalArea + e.2.area
       weightedHeight := st.1.weightedHeight + e.2.height * e.2.area }, true)
  else st

/-- One full pass of the growth `for` loop over all small footprints. -/
def scanSmall (K : GeoKernel G) (barrier : Option G) (m : ℚ)
    (small : List (Footprint G)) (s : GrowState G) : GrowState G × Bool :=
  small.enum.foldl (absorbStep K barrier m) (s, false)

theorem absorbStep_visited_mono (K : GeoKernel G) (barrier : Option G) (m : ℚ)
    (st : GrowState G × Bool) (e : ℕ × Footprint G) :
    st.1.visited ⊆ (absorbStep K barrier m st e).1.visited ∧
      ((absorbStep K barrier m st e).2 = st.2 ∨
        ((absorbStep K barrier m st e).2 = true ∧
          ∃ j, j ∉ st.1.visited ∧ j ∈ (absorbStep K barrier m st e).1.visited)) := by
  unfold absorbStep
  by_cases h1 : e.1 ∈ st.1.visited
  · simp [h1]
  · by_cases h2 : K.distance e.2.polygon st.1.clusterUnion < m ∧
        is_blocked_by_barrier K (K.centroid st.1.clusterUnion)
          (K.centroid e.2.polygon) barrier = false
    · refine ⟨?_, Or.inr ⟨by simp [h1, h2], e.1, h1, by simp [h1, h2]⟩⟩
      intro a ha
      simp only [h1, h2, if_false, if_true, ite_true, ite_false]
      simp [Finset.mem_insert, ha]
    · simp [h1, h2]

/-- A scan that reports growth strictly enlarged the visited set. -/
theorem scanSmall_growth (K : GeoKernel G) (barrier : Option G) (m : ℚ)
    (small : List (Footprint G)) (s : GrowState G) :
    s.visited ⊆ (scanSmall K barrier m small s).1.visited ∧
      ((scanSmall K barrier m small s).2 = true →
        ∃ j, j ∉ s.visited ∧ j ∈ (scanSmall K barrier m small s).1.visited) := by
  unfold scanSmall
  generalize small.enum = es
  suffices h : ∀ (st : GrowState G × Bool),
      st.1.visited ⊆ (es.foldl (absorbStep K barrier m) st).1.visited ∧
        ((es.foldl (absorbStep K barrier m) st).2 = true →
          st.2 = true ∨
            ∃ j, j ∉ st.1.visited ∧ j ∈ (es.foldl (absorbStep K barrier m) st).1.visited) by
    obtain ⟨h1, h2⟩ := h (s, false)
    refine ⟨h1, fun hg => ?_⟩
    rcases h2 hg with h | h
    · exact absurd h (by simp)
    · exact h
  induction es with
  | nil => intro st; exact ⟨Finset.Subset.refl _, fun hg => Or.inl hg⟩
  | cons e es ih =>
      intro st
      obtain ⟨hmono, hflag⟩ := absorbStep_visited_mono K barrier m st e
      obtain ⟨ih1, ih2⟩ := ih (absorbStep K barrier m st e)
      refine ⟨hmono.trans ih1, fun hg => ?_⟩
      simp only [List.foldl_cons] at hg ⊢
      rcases ih2 hg with h | ⟨j, hj1, hj2⟩
      · rcases hflag with h' | ⟨_, j, hj1, hj2⟩
        · exact Or.inl (h' ▸ h)
        · exact Or.inr ⟨j, hj1, ih1 hj2⟩
      · exact Or.inr ⟨j, fun hjs => hj1 (hmono hjs), hj2⟩

theorem enumFstLt {α : Type} {l : List α} {e : ℕ × α} (h : e ∈ l.enum) :
    e.1 < l.length := by
  rw [List.mem_enum_iff_getElem?] at h
  exact (List.getElem?_eq_some.mp h).1

theorem absorbStep_visited_subset (K : GeoKernel G) (barrier : Option G) (m : ℚ)
    (st : GrowState G × Bool) (e : ℕ × Footprint G) :
    (absorbStep K barrier m st e).1.visited ⊆ insert e.1 st.1.visited := by
  unfold absorbStep
  by_cases h1 : e.1 ∈ st.1.visited
  · simp only [h1, if_true]
    exact Finset.subset_insert _ _
  · by_cases h2 : K.distance e.2.polygon st.1.clusterUnion < m ∧
        is_blocked_by_barrier K (K.centroid st.1.clusterUnion)
          (K.centroid e.2.polygon) barrier = false
    · simp only [h1, h2, if_false, if_true, ite_true, ite_false]
      simp
    · simp only [h1, h2, if_false, ite_false]
      exact Finset.subset_insert _ _

theorem scanSmall_visited_subset (K : GeoKernel G) (barrier : Option G) (m : ℚ)
    (small : List (Footprint G)) (s : GrowState G) :
    (scanSmall K barrier m small s).1.visited ⊆
      s.visited ∪ (small.enum.map Prod.fst).toFinset := by
  unfold scanSmall
  have hgen : ∀ (es : List (ℕ × Footprint G)) (st : GrowState G × Bool),
      (es.foldl (absorbStep K barrier m) st).1.visited ⊆
        st.1.visited ∪ (es.map Prod.fst).toFinset := by
    intro es
    induction es with
    | nil => intro st; simp
    | cons e es ih =>
        intro st
        refine (ih (absorbStep K barrier m st e)).trans ?_
        have := absorbStep_visited_subset K barrier m st e
        intro a ha
        rcases Finset.mem_union.mp ha with h | h
        · rcases Finset.mem_insert.mp (this h) with h' | h'
          · subst h'
            simp
          · exact Finset.mem_union.mpr (Or.inl h')
        · simp only [List.map_cons, List.toFinset_cons, Finset.mem_union,
            Finset.mem_insert]
          tauto
  exact hgen small.enum (s, false)

/-- A growth pass that set the `growing` flag strictly shrinks the set of
unvisited small-footprint indices. -/
theorem scanSmall_measure (K : GeoKernel G) (barrier : Option G) (m : ℚ)
    (small : List (Footprint G)) (s : GrowState G)
    (hg : (scanSmall K barrier m small s).2 = true) :
    (Finset.range small.length \ (scanSmall K barrier m small s).1.visited).card <
      (Finset.range small.length \ s.visited).card := by
  obtain ⟨hmono, hgrow⟩ := scanSmall_growth K barrier m small s
  obtain ⟨j, hj1, hj2⟩ := hgrow hg
  have hjlt : j < small.length := by
    have hj3 := scanSmall_visited_subset K barrier m small s hj2
    rcases Finset.mem_union.mp hj3 with h | h
    · exact absurd h hj1
    · obtain ⟨e, he, hfst⟩ := List.mem_toFinset.mp h |> List.mem_map.mp
      exact hfst ▸ enumFstLt he
  apply Finset.card_lt_card
  constructor
  · intro a ha
    rcases Finset.mem_sdiff.mp ha with ⟨h1, h2⟩
    exact Finset.mem_sdiff.mpr ⟨h1, fun hv => h2 (hmono hv)⟩
  · intro hsub
    have : j ∈ Finset.range small.length \ s.visited :=
      Finset.mem_sdiff.mpr ⟨Finset.mem_range.mpr hjlt, hj1⟩
    have := Finset.mem_sdiff.mp (hsub this)
    exact this.2 hj2

/-- Embeds the `while growing and cluster_union.area < AREA_THRESHOLD` loop
of `_area_based_merge`: each iteration first re-checks the area bound, then
performs one full scan; a scan that absorbed nothing ends the growth. -/
def growClusterAux (K : GeoKernel G) (barrier : Option G) (m T : ℚ)
    (small : List (Footprint G)) (s : GrowState G) : GrowState G :=
  if T ≤ K.area s.clusterUnion then s
  else
    if hgrew : (scanSmall K barrier m small s).2 = true then
      growClusterAux K barrier m T small (scanSmall K barrier m small s).1
    else (scanSmall K barrier m small s).1
termination_by (Finset.range small.length \ s.visited).card
decreasing_by
  exact scanSmall_measure K barrier m small s hgrew

/-- Embeds the force-merge step of `_area_based_merge`: a non-`Polygon`
accumulated union is closed by a `±merge_dist * 0.5` buffer round trip, then
unioned part-wise, with convex hull as the last resort. -/
def forceMerge (K : GeoKernel G) (m : ℚ) (u : G) : G :=
  let combined := K.buffer (K.buffer u (m * (1 / 2))) (-(m * (1 / 2)))
  if K.geomIsPolygon combined = false then
    let c2 := K.unionParts combined
    if K.geomIsPolygon c2 = false then K.convexHull c2 else c2
  else combined

/-- Output record of the block combiner (dict with `coords`, `height`,
`is_cluster` and, on merged clusters, `roof_style` / `roof_params`). -/
structure OutBuilding (P : Type) where
  coords : List Pt
  height : ℚ
  isCluster : Bool
  roofStyle : Option String := none
  roofParams : Option P := none

/-- Final shape extraction of one grown small cluster (after the growth loop
and the force merge): ring coordinates, averaged height, and the roof fields
for clusters of at least two members.  The roof parameter is the value the
(randomized) `_select_random_roof` returns for this cluster. -/
def finishSmallCluster {P : Type} (K : GeoKernel G) (m : ℚ) (s : GrowState G)
    (roofName : P → String) (roof : P) : OutBuilding P :=
  let u0 := s.clusterUnion
  let u := if K.geomIsPolygon u0 = false then forceMerge K m u0 else u0
  let coords :=
    if K.geomIsPolygon u then K.exteriorRing u
    else K.exteriorRing (K.convexHull u)
  let avgHeight := if 0 < s.totalArea then s.weightedHeight / s.totalArea else 4
  if 1 < s.cluster.length then
    { coords := coords, height := avgHeight, isCluster := true
      roofStyle := some (roofName roof), roofParams := some roof }
  else
    { coords := coords, height := avgHeight, isCluster := false }

/-- Initial growth state for a seed footprint `fp` at index `i`. -/
def seedState (i : ℕ) (fp : Footprint G) (visited : Finset ℕ) : GrowState G :=
  { cluster := [fp]
    visited := insert i visited
    clusterUnion := fp.polygon
    totalArea := fp.area
    weightedHeight := fp.height * fp.area }

/-- The small-footprint half of `_area_based_merge`: every unvisited small
footprint seeds a cluster which is grown, force-merged and emitted.  The
`roofs` stream supplies the successive results of `_select_random_roof`
(consumed only by clusters of at least two members, mirroring the laziness
of the source). -/
def processSmalls {P : Type} (K : GeoKernel G) (barrier : Option G) (m T : ℚ)
    (roofName : P → String) (roofs : ℕ → P) (small : List (Footprint G)) :
    List (OutBuilding P) :=
  (small.enum.foldl
    (fun (st : Finset ℕ × ℕ × List (OutBuilding P)) e =>
      if e.1 ∈ st.1 then st
      else
        let s := growClusterAux K barrier m T small (seedState e.1 e.2 st.1)
        let out := finishSmallCluster K m s roofName (roofs st.2.1)
        (s.visited, (if 1 < s.cluster.length then st.2.1 + 1 else st.2.1),
          st.2.2 ++ [out]))
    (∅, 0, [])).2.2

/-- Large-footprint passthrough of `_area_based_merge`: the polygon (largest
part if multi-part) is emitted with its own ring and height, unclustered. -/
def largePass {P : Type} (K : GeoKernel G) (fp : Footprint G) : OutBuilding P :=
  let poly := if K.geomIsMulti fp.polygon then K.largestPart fp.polygon else fp.polygon
  { coords := K.exteriorRing poly, height := fp.height, isCluster := false }

/-- Embeds `BlockCombiner._area_based_merge` with its fixed
`AREA_THRESHOLD = 200`: gather footprints, build the barrier union,
partition by area, grow the small ones, pass the large ones through, and
return large buildings first. -/
def area_based_merge {P : Type} (K : GeoKernel G) (roadWidth m : ℚ)
    (roofName : P → String) (roofs : ℕ → P) (fs : Features) :
    List (OutBuilding P) :=
  let T : ℚ := 200
  let footprints := gather_all_footprints K fs
  let barrier := bc_create_barrier_union K fs roadWidth
  let large := footprints.filter (fun fp => T ≤ fp.area)
  let small := footprints.filter (fun fp => fp.area < T)
  large.map (largePass K) ++ processSmalls K barrier m T roofName roofs small

end BlockCombiner

namespace BlockCombiner

variable {G : Type}

/-- Eligibility of a candidate for absorption into the accumulated union, as
tested by the growth scan. -/
def eligible (K : GeoKernel G) (barrier : Option G) (m : ℚ) (s : GrowState G)
    (fp : Footprint G) : Prop :=
  K.distance fp.polygon s.clusterUnion < m ∧
    is_blocked_by_barrier K (K.centroid s.clusterUnion) (K.centroid fp.polygon)
      barrier = false

instance (K : GeoKernel G) (barrier : Option G) (m : ℚ) (s : GrowState G)
    (fp : Footprint G) : Decidable (eligible K barrier m s fp) := by
  unfold eligible
  infer_instance

theorem absorbStep_flag_mono (K : GeoKernel G) (barrier : Option G) (m : ℚ)
    (st : GrowState G × Bool) (e : ℕ × Footprint G) (h : st.2 = true) :
    (absorbStep K barrier m st e).2 = true := by
  unfold absorbStep
  split
  · exact h
  · split
    · rfl
    · exact h

theorem absorbStep_of_not_absorbed (K : GeoKernel G) (barrier : Option G) (m : ℚ)
    (st : GrowState G × Bool) (e : ℕ × Footprint G)
    (h : (absorbStep K barrier m st e).2 = false) :
    absorbStep K barrier m st e = st ∧
      (e.1 ∉ st.1.visited → ¬ eligible K barrier m st.1 e.2) := by
  by_cases h1 : e.1 ∈ st.1.visited
  · constructor
    · unfold absorbStep
      rw [if_pos h1]
    · intro hc
      exact absurd h1 hc
  · by_cases h2 : K.distance e.2.polygon st.1.clusterUnion < m ∧
        is_blocked_by_barrier K (K.centroid st.1.clusterUnion)
          (K.centroid e.2.polygon) barrier = false
    · exfalso
      unfold absorbStep at h
      rw [if_neg h1, if_pos h2] at h
      simp at h
    · constructor
      · unfold absorbStep
        rw [if_neg h1, if_neg h2]
      · intro _
        unfold eligible
        exact h2

/-- A scan that reports no growth leaves the state unchanged and certifies
that every unvisited candidate of the pass was ineligible. -/
theorem scanSmall_nogrow (K : GeoKernel G) (barrier : Option G) (m : ℚ)
    (small : List (Footprint G)) (s : GrowState G)
    (h : (scanSmall K barrier m small s).2 = false) :
    (scanSmall K barrier m small s).1 = s ∧
      ∀ e ∈ small.enum, e.1 ∉ s.visited → ¬ eligible K barrier m s e.2 := by
  unfold scanSmall at h ⊢
  have hgen : ∀ (es : List (ℕ × Footprint G)) (st : GrowState G × Bool),
      (es.foldl (absorbStep K barrier m) st).2 = false →
        es.foldl (absorbStep K barrier m) st = st ∧
          ∀ e ∈ es, e.1 ∉ st.1.visited → ¬ eligible K barrier m st.1 e.2 := by
    intro es
    induction es with
    | nil => intro st h; exact ⟨rfl, by simp⟩
    | cons e es ih =>
        intro st h
        simp only [List.foldl_cons] at h ⊢
        have hstepflag : (absorbStep K barrier m st e).2 = false := by
          cases hb : (absorbStep K barrier m st e).2 with
          | false => rfl
          | true =>
              exfalso
              have hmono : ∀ (es' : List (ℕ × Footprint G)) (st' : GrowState G × Bool),
                  st'.2 = true → (es'.foldl (absorbStep K barrier m) st').2 = true := by
                intro es'
                induction es' with
                | nil => intro st' h'; exact h'
                | cons e' es' ih' =>
                    intro st' h'
                    simp only [List.foldl_cons]
                    exact ih' _ (absorbStep_flag_mono K barrier m st' e' h')
              rw [hmono es _ hb] at h
              simp at h
        obtain ⟨hid, hnot⟩ := absorbStep_of_not_absorbed K barrier m st e hstepflag
        rw [hid] at h ⊢
        obtain ⟨hid2, hall⟩ := ih st h
        refine ⟨hid2, ?_⟩
        intro e' he' hv
        rcases List.mem_cons.mp he' with h' | h'
        · subst h'
          exact hnot hv
        · exact hall e' h' hv
  have := hgen small.enum (s, false)
  obtain ⟨h1, h2⟩ := this h
  exact ⟨by rw [h1], h2⟩

/-- Generic invariant preservation through the growth loop: any property
preserved by a full scan holds for the loop result. -/
theorem growClusterAux_inv (K : GeoKernel G) (barrier : Option G) (m T : ℚ)
    (small : List (Footprint G)) (P : GrowState G → Prop)
    (hP : ∀ s, P s → P (scanSmall K barrier m small s).1) :
    ∀ s, P s → P (growClusterAux K barrier m T small s) := by
  intro s
  induction s using growClusterAux.induct K barrier m T small with
  | case1 s hT =>
      intro hs
      rw [growClusterAux, if_pos hT]
      exact hs
  | case2 s hT hgrew ih =>
      intro hs
      rw [growClusterAux, if_neg hT, dif_pos hgrew]
      exact ih (hP s hs)
  | case3 s hT hgrew =>
      intro hs
      rw [growClusterAux, if_neg hT, dif_neg hgrew]
      exact hP s hs

/-- The growth loop ends below the threshold only when the last full scan
absorbed nothing. -/
theorem growClusterAux_exit (K : GeoKernel G) (barrier : Option G) (m T : ℚ)
    (small : List (Footprint G)) (s : GrowState G)
    (hlt : K.area (growClusterAux K barrier m T small s).clusterUnion < T) :
    (scanSmall K barrier m small
        (growClusterAux K barrier m T small s)).2 = false := by
  induction s using growClusterAux.induct K barrier m T small with
  | case1 s hT =>
      rw [growClusterAux, if_pos hT] at hlt ⊢
      exact absurd hlt (not_lt.mpr hT)
  | case2 s hT hgrew ih =>
      rw [growClusterAux, if_neg hT, dif_pos hgrew] at hlt ⊢
      exact ih hlt
  | case3 s hT hgrew =>
      rw [growClusterAux, if_neg hT, dif_neg hgrew] at hlt ⊢
      obtain ⟨hid, _⟩ := scanSmall_nogrow K barrier m small s
        (Bool.not_eq_true _ ▸ hgrew)
      rw [hid]
      exact Bool.not_eq_true _ ▸ hgrew

end BlockCombiner

namespace BlockCombiner

variable {G : Type}

/-- C4: in area-threshold mode, growth never stops while growth is still
possible.  If the grown cluster ends with accumulated-union area below the
threshold, then every small footprint left unvisited was ineligible for the
final state: either not within `merge_distance` of the accumulated union, or
blocked by the barrier on the centroid-to-centroid segment. -/
theorem c4_growth_stops_only_when_exhausted (K : GeoKernel G)
    (barrier : Option G) (m T : ℚ) (small : List (Footprint G))
    (s₀ : GrowState G)
    (hlt : K.area (growClusterAux K barrier m T small s₀).clusterUnion < T) :
    ∀ e ∈ small.enum,
      e.1 ∉ (growClusterAux K barrier m T small s₀).visited →
        ¬ eligible K barrier m (growClusterAux K barrier m T small s₀) e.2 := by
  have hflag := growClusterAux_exit K barrier m T small s₀ hlt
  obtain ⟨_, hall⟩ := scanSmall_nogrow K barrier m small
    (growClusterAux K barrier m T small s₀) hflag
  exact hall

/-- A degenerate geometry kernel over `Unit`, used by concrete witnesses. -/
def unitKernel : GeoKernel Unit where
  lineOf _ := some ()
  polygonOf _ := some ()
  isValid _ := true
  isEmpty _ := false
  area _ := 0
  buffer _ _ := ()
  distance _ _ := 1000
  centroid _ := (0, 0)
  union2 _ _ := ()
  unionList _ := ()
  unionParts _ := ()
  makeValid _ := ()
  geomIsPolygon _ := true
  geomIsMulti _ := false
  largestPart _ := ()
  convexHull _ := ()
  exteriorRing _ := [(0, 0), (1, 0), (0, 1)]
  intersects _ _ := false

/-- Witness for C4: with two small footprints too distant to absorb, the
loop ends below the threshold and the second footprint is certified
ineligible. -/
theorem c4_growth_stops_only_when_exhausted_witness :
    ¬ eligible unitKernel none 5
        (growClusterAux unitKernel none 5 200
          [⟨(), 10, 3⟩, ⟨(), 12, 4⟩]
          (seedState 0 ⟨(), 10, 3⟩ ∅))
        ⟨(), 12, 4⟩ := by
  have hred : growClusterAux unitKernel none 5 200
      [⟨(), 10, 3⟩, ⟨(), 12, 4⟩] (seedState 0 ⟨(), 10, 3⟩ ∅) =
      seedState 0 ⟨(), 10, 3⟩ ∅ := by
    rw [growClusterAux]
    norm_num [scanSmall, absorbStep, seedState, unitKernel, is_blocked_by_barrier,
      List.enum, List.enumFrom]
  have h := c4_growth_stops_only_when_exhausted unitKernel none 5 200
    [⟨(), 10, 3⟩, ⟨(), 12, 4⟩] (seedState 0 ⟨(), 10, 3⟩ ∅)
  refine h ?_ (1, ⟨(), 12, 4⟩) ?_ ?_
  · rw [hred]
    norm_num [seedState, unitKernel]
  · decide
  · rw [hred]
    decide

/-- Accumulator invariant: the growth loop keeps `total_area` and
`weighted_height` equal to the sums of the members' stored areas and
height-weighted areas. -/
def accumInv (s : GrowState G) : Prop :=
  s.totalArea = (s.cluster.map (fun fp => fp.area)).sum ∧
    s.weightedHeight = (s.cluster.map (fun fp => fp.height * fp.area)).sum

theorem absorbStep_accum (K : GeoKernel G) (barrier : Option G) (m : ℚ)
    (st : GrowState G × Bool) (e : ℕ × Footprint G) (h : accumInv st.1) :
    accumInv (absorbStep K barrier m st e).1 := by
  unfold absorbStep
  split
  · exact h
  · split
    · obtain ⟨h1, h2⟩ := h
      constructor
      · simp [h1]
      · simp [h2]
    · exact h

theorem scanSmall_accum (K : GeoKernel G) (barrier : Option G) (m : ℚ)
    (small : List (Footprint G)) (s : GrowState G) (h : accumInv s) :
    accumInv (scanSmall K barrier m small s).1 := by
  unfold scanSmall
  have hgen : ∀ (es : List (ℕ × Footprint G)) (st : GrowState G × Bool),
      accumInv st.1 → accumInv (es.foldl (absorbStep K barrier m) st).1 := by
    intro es
    induction es with
    | nil => intro st h; exact h
    | cons e es ih =>
        intro st h
        simp only [List.foldl_cons]
        exact ih _ (absorbStep_accum K barrier m st e h)
  exact hgen small.enum (s, false) h

theorem growClusterAux_accum (K : GeoKernel G) (barrier : Option G) (m T : ℚ)
    (small : List (Footprint G)) (s : GrowState G) (h : accumInv s) :
    accumInv (growClusterAux K barrier m T small s) :=
  growClusterAux_inv K barrier m T small accumInv
    (fun s hs => scanSmall_accum K barrier m small s hs) s h

theorem finishSmallCluster_height {P : Type} (K : GeoKernel G) (m : ℚ)
    (s : GrowState G) (roofName : P → String) (roof : P) :
    (finishSmallCluster K m s roofName roof).height =
      if 0 < s.totalArea then s.weightedHeight / s.totalArea else 4 := by
  unfold finishSmallCluster
  by_cases h : 1 < s.cluster.length
  · simp [h]
  · simp [h]

end BlockCombiner

namespace BuildingMerger

theorem merge_cluster_foldl (cluster : List Building) (a0 b0 : ℚ) (c0 : List Pt) :
    cluster.foldl
        (fun (a : ℚ × ℚ × List Pt) b =>
          let area := GeometryUtils.calculate_polygon_area b.coords
          (a.1 + area, a.2.1 + b.height * area, a.2.2 ++ b.coords))
        (a0, b0, c0) =
      (a0 + (cluster.map (fun b => GeometryUtils.calculate_polygon_area b.coords)).sum,
        b0 + (cluster.map
          (fun b => b.height * GeometryUtils.calculate_polygon_area b.coords)).sum,
        c0 ++ (cluster.map (fun b => b.coords)).flatten) := by
  induction cluster generalizing a0 b0 c0 with
  | nil => simp
  | cons x t ih =>
      simp only [List.foldl_cons, List.map_cons, List.sum_cons]
      rw [ih]
      simp only [Prod.mk.injEq]
      refine ⟨by ring, by ring, ?_⟩
      simp [List.append_assoc]

theorem merge_cluster_height (cfg : ArtisticEffects.StyleCfg)
    (O : ArtisticEffects.HullOracle) (cluster : List Building)
    (hn : 2 ≤ cluster.length)
    (hpos : 0 < (cluster.map
      (fun b => GeometryUtils.calculate_polygon_area b.coords)).sum) :
    (merge_cluster cfg O cluster).height =
      (cluster.map
        (fun b => b.height * GeometryUtils.calculate_polygon_area b.coords)).sum /
      (cluster.map (fun b => GeometryUtils.calculate_polygon_area b.coords)).sum := by
  match cluster, hn with
  | x :: y :: t, _ =>
      show (merge_cluster cfg O (x :: y :: t)).height = _
      unfold merge_cluster
      simp only []
      rw [merge_cluster_foldl]
      simp only [zero_add]
      rw [if_pos (by exact_mod_cast hpos)]

end BuildingMerger

/-- C2: for every merged cluster, in distance mode and in area-threshold
mode alike, the emitted height is the area-weighted average of the member
heights, `(Σ hᵢ·aᵢ) / (Σ aᵢ)`, each member weighted by its own original
polygon area (shoelace area of its ring in distance mode, the stored
per-footprint `area` in area mode), provided the total weight is positive
(the source falls back to a default height otherwise). -/
theorem c2_cluster_height_area_weighted
    (cfg : ArtisticEffects.StyleCfg) (O : ArtisticEffects.HullOracle)
    (cluster : List Building) (hn : 2 ≤ cluster.length)
    (hpos : 0 < (cluster.map
      (fun b => GeometryUtils.calculate_polygon_area b.coords)).sum)
    {G P : Type} (K : GeoKernel G) (barrier : Option G) (m T : ℚ)
    (small : List (Footprint G)) (s₀ : BlockCombiner.GrowState G)
    (hinv : BlockCombiner.accumInv s₀)
    (hpos2 : 0 < ((BlockCombiner.growClusterAux K barrier m T small s₀).cluster.map
      (fun fp => fp.area)).sum)
    (roofName : P → String) (roof : P) :
    (BuildingMerger.merge_cluster cfg O cluster).height =
      (cluster.map
        (fun b => b.height * GeometryUtils.calculate_polygon_area b.coords)).sum /
      (cluster.map (fun b => GeometryUtils.calculate_polygon_area b.coords)).sum ∧
    (BlockCombiner.finishSmallCluster K m
        (BlockCombiner.growClusterAux K barrier m T small s₀) roofName roof).height =
      ((BlockCombiner.growClusterAux K barrier m T small s₀).cluster.map
        (fun fp => fp.height * fp.area)).sum /
      ((BlockCombiner.growClusterAux K barrier m T small s₀).cluster.map
        (fun fp => fp.area)).sum := by
  constructor
  · exact BuildingMerger.merge_cluster_height cfg O cluster hn hpos
  · have hacc := BlockCombiner.growClusterAux_accum K barrier m T small s₀ hinv
    rw [BlockCombiner.finishSmallCluster_height]
    rw [hacc.1, hacc.2]
    rw [if_pos hpos2]

/-- Distance-mode witness cluster members. -/
def w1 : Building := { coords := [(0, 0), (4, 0), (0, 4)], height := 6 }

def w2 : Building := { coords := [(10, 0), (14, 0), (10, 4)], height := 12 }

/-- Area-mode witness seed footprint over the degenerate kernel. -/
def wfp : Footprint Unit := ⟨(), 10, 3⟩

/-- Witness for C2: a two-triangle distance-mode cluster and a seeded
area-mode cluster with no candidates. -/
theorem c2_cluster_height_area_weighted_witness :
    (BuildingMerger.merge_cluster (minimalCfg 5) trivialOracle [w1, w2]).height =
      ([w1, w2].map
        (fun b => b.height * GeometryUtils.calculate_polygon_area b.coords)).sum /
      ([w1, w2].map (fun b => GeometryUtils.calculate_polygon_area b.coords)).sum ∧
    (BlockCombiner.finishSmallCluster BlockCombiner.unitKernel 5
        (BlockCombiner.growClusterAux BlockCombiner.unitKernel none 5 200 []
          (BlockCombiner.seedState 0 wfp ∅))
        (fun _ : Unit => "flat") ()).height =
      ((BlockCombiner.growClusterAux BlockCombiner.unitKernel none 5 200 []
          (BlockCombiner.seedState 0 wfp ∅)).cluster.map
        (fun fp => fp.height * fp.area)).sum /
      ((BlockCombiner.growClusterAux BlockCombiner.unitKernel none 5 200 []
          (BlockCombiner.seedState 0 wfp ∅)).cluster.map
        (fun fp => fp.area)).sum := by
  have hred : BlockCombiner.growClusterAux BlockCombiner.unitKernel none 5 200 []
      (BlockCombiner.seedState 0 wfp ∅) = BlockCombiner.seedState 0 wfp ∅ := by
    rw [BlockCombiner.growClusterAux]
    norm_num [BlockCombiner.scanSmall, BlockCombiner.seedState,
      BlockCombiner.unitKernel, List.enum]
  exact c2_cluster_height_area_weighted (minimalCfg 5) trivialOracle
    [w1, w2] (by decide)
    (by norm_num [w1, w2, GeometryUtils.calculate_polygon_area,
      GeometryUtils.shoelaceSum])
    BlockCombiner.unitKernel none 5 200 [] (BlockCombiner.seedState 0 wfp ∅)
    (by constructor <;> simp [BlockCombiner.seedState, BlockCombiner.accumInv, wfp])
    (by rw [hred]; norm_num [BlockCombiner.seedState, wfp])
    (fun _ : Unit => "flat") ()

/-- Syntactic geometry terms: a free term algebra over the shapely calls,
used to instantiate `GeoKernel` where a claim is about the structure of the
constructed geometry (which features are buffered, which are unioned). -/
inductive GTerm where
  | poly (cs : List Pt)
  | line (cs : List Pt)
  | buffer (g : GTerm) (d : ℚ)
  | unionL (gs : List GTerm)
  | union2T (a b : GTerm)
  | makeValidT (g : GTerm)
  | convexHullT (g : GTerm)
  | unionPartsT (g : GTerm)
  | largestPartT (g : GTerm)

/-- The syntactic kernel: constructors build terms (`LineString` requires at
least 2 points, `Polygon` at least 3, mirroring when shapely raises); every
geometry is valid, non-empty and single-part; the area of a polygon term is
its ring's shoelace area. -/
def termKernel : GeoKernel GTerm where
  lineOf cs := if 2 ≤ cs.length then some (GTerm.line cs) else none
  polygonOf cs := if 3 ≤ cs.length then some (GTerm.poly cs) else none
  isValid _ := true
  isEmpty _ := false
  area g := match g with
    | GTerm.poly cs => GeometryUtils.calculate_polygon_area cs
    | _ => 0
  buffer g d := GTerm.buffer g d
  distance _ _ := 1000
  centroid _ := (0, 0)
  union2 := GTerm.union2T
  unionList := GTerm.unionL
  unionParts := GTerm.unionPartsT
  makeValid := GTerm.makeValidT
  geomIsPolygon g := match g with
    | GTerm.poly _ => true
    | _ => false
  geomIsMulti _ := false
  largestPart := GTerm.largestPartT
  convexHull := GTerm.convexHullT
  exteriorRing g := match g with
    | GTerm.poly cs => cs
    | _ => []
  intersects _ _ := false

namespace BlockCombiner

variable {G : Type}

/-- Every gathered footprint originates from a building feature (default
height 10) or an industrial feature (default height 15). -/
theorem gather_mem_exists (K : GeoKernel G) (fs : Features) (fp : Footprint G)
    (hfp : fp ∈ gather_all_footprints K fs) :
    ∃ f d, ((f ∈ fs.buildings ∧ d = (10 : ℚ)) ∨ (f ∈ fs.industrial ∧ d = 15)) ∧
      gatherOne K d f = some fp := by
  unfold gather_all_footprints at hfp
  rcases List.mem_append.mp hfp with h | h
  · obtain ⟨f, hf, hg⟩ := List.mem_filterMap.mp h
    exact ⟨f, 10, Or.inl ⟨hf, rfl⟩, hg⟩
  · obtain ⟨f, hf, hg⟩ := List.mem_filterMap.mp h
    exact ⟨f, 15, Or.inr ⟨hf, rfl⟩, hg⟩

/-- Anatomy of a successful `gatherOne`. -/
theorem gatherOne_some (K : GeoKernel G) (d : ℚ) (f : Feat) (fp : Footprint G)
    (h : gatherOne K d f = some fp) :
    3 ≤ f.coords.length ∧ K.polygonOf f.coords = some fp.polygon ∧
      fp.height = f.height.getD d ∧ fp.area = K.area fp.polygon := by
  unfold gatherOne at h
  by_cases h1 : 3 ≤ f.coords.length
  · rw [if_pos h1] at h
    cases hpoly : K.polygonOf f.coords with
    | none =>
        rw [hpoly] at h
        exact absurd h (by simp)
    | some poly =>
        rw [hpoly] at h
        dsimp only at h
        by_cases h2 : K.isValid poly = true ∧ K.isEmpty poly = false
        · rw [if_pos h2] at h
          have hfp := Option.some.inj h
          refine ⟨h1, ?_, ?_, ?_⟩
          · rw [← hfp]
          · rw [← hfp]
          · rw [← hfp]
        · rw [if_neg h2] at h
          exact absurd h (by simp)
  · rw [if_neg h1] at h
    exact absurd h (by simp)

/-- C3: in area-threshold mode every gathered footprint with area at least
the 200-unit threshold is passed through: it appears in the output with the
coordinates of its originating feature (the exterior ring of its polygon,
the largest part being taken for a multi-part polygon — vacuous here since
gathered polygons are single-part), with its own height, `is_cluster =
false` and no roof, and it is excluded from the `small` partition that the
merge loop draws members from. -/
theorem c3_large_footprint_preserved {P : Type} (K : GeoKernel G)
    (roadWidth m : ℚ) (roofName : P → String) (roofs : ℕ → P) (fs : Features)
    (fp : Footprint G)
    (hfp : fp ∈ gather_all_footprints K fs) (hA : 200 ≤ fp.area)
    (hmulti : K.geomIsMulti fp.polygon = false)
    (hRT : ∀ cs p, K.polygonOf cs = some p → K.exteriorRing p = cs) :
    largePass (P := P) K fp ∈ area_based_merge K roadWidth m roofName roofs fs ∧
      (largePass (P := P) K fp).isCluster = false ∧
      (largePass (P := P) K fp).roofStyle = none ∧
      (largePass (P := P) K fp).height = fp.height ∧
      (∃ f d, ((f ∈ fs.buildings ∧ d = (10 : ℚ)) ∨ (f ∈ fs.industrial ∧ d = 15)) ∧
        (largePass (P := P) K fp).coords = f.coords ∧ fp.height = f.height.getD d) ∧
      fp ∉ (gather_all_footprints K fs).filter (fun fp => fp.area < 200) := by
  have hpass : largePass (P := P) K fp =
      { coords := K.exteriorRing fp.polygon, height := fp.height,
        isCluster := false } := by
    unfold largePass
    rw [hmulti]
    simp
  refine ⟨?_, by rw [hpass], by rw [hpass], by rw [hpass], ?_, ?_⟩
  · unfold area_based_merge
    apply List.mem_append.mpr
    left
    apply List.mem_map.mpr
    refine ⟨fp, ?_, rfl⟩
    apply List.mem_filter.mpr
    exact ⟨hfp, by simpa using hA⟩
  · obtain ⟨f, d, hor, hg⟩ := gather_mem_exists K fs fp hfp
    obtain ⟨_, hpoly, hh, _⟩ := gatherOne_some K d f fp hg
    exact ⟨f, d, hor, by rw [hpass]; exact hRT f.coords fp.polygon hpoly, hh⟩
  · intro hmem
    have := (List.mem_filter.mp hmem).2
    simp at this
    exact absurd hA (not_le.mpr this)

end BlockCombiner

/-- The witness feature set for C3: a single large square building. -/
def fsW : Features :=
  { buildings := [{ coords := [(0, 0), (20, 0), (20, 20), (0, 20)],
                    height := some 7 }] }

/-- The gathered footprint of `fsW` over the syntactic kernel. -/
def fpW : Footprint GTerm :=
  ⟨GTerm.poly [(0, 0), (20, 0), (20, 20), (0, 20)], 7, 400⟩

/-- Witness for C3: the single large square building passes through the
term-level area merge untouched. -/
theorem c3_large_footprint_preserved_witness :
    BlockCombiner.largePass (P := Unit) termKernel fpW ∈
      BlockCombiner.area_based_merge termKernel 1 2 (fun _ : Unit => "flat")
        (fun _ => ()) fsW := by
  have hgather : BlockCombiner.gather_all_footprints termKernel fsW = [fpW] := by
    simp only [BlockCombiner.gather_all_footprints, fsW, List.filterMap_cons,
      List.filterMap_nil, List.append_nil]
    norm_num [BlockCombiner.gatherOne, termKernel, fpW,
      GeometryUtils.calculate_polygon_area, GeometryUtils.shoelaceSum]
  refine (BlockCombiner.c3_large_footprint_preserved termKernel 1 2
    (fun _ : Unit => "flat") (fun _ => ()) fsW fpW ?_ ?_ rfl ?_).1
  · rw [hgather]
    exact List.mem_singleton.mpr rfl
  · norm_num [fpW]
  · intro cs p h
    unfold termKernel at h
    dsimp only at h
    by_cases hlen : 3 ≤ cs.length
    · rw [if_pos hlen] at h
      rw [← Option.some.inj h]
      rfl
    · rw [if_neg hlen] at h
      exact absurd h (by simp)

namespace BuildingMerger

open GeometryUtils ArtisticEffects

/-- C1: distance-mode barrier blocking for a pair of footprints with
centroids within `merge_distance` and no third footprint present.  When the
connecting centroid-to-centroid segment hits the barrier (`blocked = true`,
embedding the `LineString.intersects` test of `_is_blocked`), the two
footprints come out as two unmodified singleton clusters; when it does not,
they are merged into a single cluster with `is_cluster = true` and two
members. -/
theorem c1_barrier_blocking (cfg : StyleCfg) (O : HullOracle) (b1 b2 : Building)
    (blocked : Pt → Pt → Bool)
    (hm : 0 < cfg.mergeDistance)
    (hd : distLt (calculate_centroid b1.coords) (calculate_centroid b2.coords)
      cfg.mergeDistance = true) :
    (blocked (calculate_centroid b1.coords) (calculate_centroid b2.coords) = true →
      merge_by_distance cfg O [b1, b2] blocked = [b1, b2]) ∧
    (blocked (calculate_centroid b1.coords) (calculate_centroid b2.coords) = false →
      merge_by_distance cfg O [b1, b2] blocked = [merge_cluster cfg O [b1, b2]] ∧
        (merge_cluster cfg O [b1, b2]).isCluster = true ∧
        (merge_cluster cfg O [b1, b2]).size = 2) := by
  set c1 := calculate_centroid b1.coords with hc1
  set c2 := calculate_centroid b2.coords with hc2
  have hidx : indexBuildings [b1, b2] = [(0, c1, b1), (1, c2, b2)] := rfl
  have hscan2 : scanAll [(0, c1, b1), (1, c2, b2)] c2 cfg.mergeDistance blocked
      ([], insert 1 ({0} : Finset ℕ)) = ([], insert 1 ({0} : Finset ℕ)) := by
    simp only [scanAll, scanStep, List.foldl_cons, List.foldl_nil]
    simp
  have hbc2 : buildClusterAux [(0, c1, b1), (1, c2, b2)] cfg.mergeDistance blocked
      [1] (insert 1 ({0} : Finset ℕ)) [] = ([b2], insert 1 ({0} : Finset ℕ)) := by
    have hstep : buildClusterAux [(0, c1, b1), (1, c2, b2)] cfg.mergeDistance blocked
        [1] (insert 1 ({0} : Finset ℕ)) [] =
        buildClusterAux [(0, c1, b1), (1, c2, b2)] cfg.mergeDistance blocked
          (scanAll [(0, c1, b1), (1, c2, b2)] c2 cfg.mergeDistance blocked
            ([], insert 1 ({0} : Finset ℕ))).1
          (scanAll [(0, c1, b1), (1, c2, b2)] c2 cfg.mergeDistance blocked
            ([], insert 1 ({0} : Finset ℕ))).2
          [b2] := by
      rw [buildClusterAux]
      rfl
    rw [hstep, hscan2, buildClusterAux]
  constructor
  · intro hb
    have hscan1 : scanAll [(0, c1, b1), (1, c2, b2)] c1 cfg.mergeDistance blocked
        ([], ({0} : Finset ℕ)) = ([], ({0} : Finset ℕ)) := by
      simp only [scanAll, scanStep, List.foldl_cons, List.foldl_nil]
      simp [hd, hb]
    have hbc1 : buildClusterAux [(0, c1, b1), (1, c2, b2)] cfg.mergeDistance blocked
        [0] (({0} : Finset ℕ)) [] = ([b1], ({0} : Finset ℕ)) := by
      have hstep : buildClusterAux [(0, c1, b1), (1, c2, b2)] cfg.mergeDistance blocked
          [0] (({0} : Finset ℕ)) [] =
          buildClusterAux [(0, c1, b1), (1, c2, b2)] cfg.mergeDistance blocked
            (scanAll [(0, c1, b1), (1, c2, b2)] c1 cfg.mergeDistance blocked
              ([], ({0} : Finset ℕ))).1
            (scanAll [(0, c1, b1), (1, c2, b2)] c1 cfg.mergeDistance blocked
              ([], ({0} : Finset ℕ))).2
            [b1] := by
        rw [buildClusterAux]
        rfl
      rw [hstep, hscan1, buildClusterAux]
    unfold merge_by_distance
    rw [if_neg (not_le.mpr hm)]
    rw [hidx]
    unfold build_cluster
    simp only [List.foldl_cons, List.foldl_nil]
    simp [hbc1, hbc2, merge_cluster]
  · intro hb
    have hscan1 : scanAll [(0, c1, b1), (1, c2, b2)] c1 cfg.mergeDistance blocked
        ([], ({0} : Finset ℕ)) = ([1], insert 1 ({0} : Finset ℕ)) := by
      simp only [scanAll, scanStep, List.foldl_cons, List.foldl_nil]
      simp [hd, hb]
    have hbc1 : buildClusterAux [(0, c1, b1), (1, c2, b2)] cfg.mergeDistance blocked
        [0] (({0} : Finset ℕ)) [] = ([b1, b2], insert 1 ({0} : Finset ℕ)) := by
      have hstep : buildClusterAux [(0, c1, b1), (1, c2, b2)] cfg.mergeDistance blocked
          [0] (({0} : Finset ℕ)) [] =
          buildClusterAux [(0, c1, b1), (1, c2, b2)] cfg.mergeDistance blocked
            (scanAll [(0, c1, b1), (1, c2, b2)] c1 cfg.mergeDistance blocked
              ([], ({0} : Finset ℕ))).1
            (scanAll [(0, c1, b1), (1, c2, b2)] c1 cfg.mergeDistance blocked
              ([], ({0} : Finset ℕ))).2
            [b1] := by
        rw [buildClusterAux]
        rfl
      rw [hstep, hscan1]
      have hstep2 : buildClusterAux [(0, c1, b1), (1, c2, b2)] cfg.mergeDistance blocked
          [1] (insert 1 ({0} : Finset ℕ)) [b1] =
          buildClusterAux [(0, c1, b1), (1, c2, b2)] cfg.mergeDistance blocked
            (scanAll [(0, c1, b1), (1, c2, b2)] c2 cfg.mergeDistance blocked
              ([], insert 1 ({0} : Finset ℕ))).1
            (scanAll [(0, c1, b1), (1, c2, b2)] c2 cfg.mergeDistance blocked
              ([], insert 1 ({0} : Finset ℕ))).2
            [b1, b2] := by
        rw [buildClusterAux]
        rfl
      rw [hstep2, hscan2, buildClusterAux]
    refine ⟨?_, rfl, rfl⟩
    unfold merge_by_distance
    rw [if_neg (not_le.mpr hm)]
    rw [hidx]
    unfold build_cluster
    simp only [List.foldl_cons, List.foldl_nil]
    simp [hbc1, merge_cluster]

end BuildingMerger

namespace BuildingMerger

open GeometryUtils ArtisticEffects

/-- Witness for C1: two squares 10 apart with `merge_distance = 15`, once
with an always-intersecting barrier and once with no barrier. -/
theorem c1_barrier_blocking_witness :
    merge_by_distance (minimalCfg 15) trivialOracle [w1, w2]
        (fun _ _ => true) = [w1, w2] ∧
      merge_by_distance (minimalCfg 15) trivialOracle [w1, w2]
        (fun _ _ => false) =
        [merge_cluster (minimalCfg 15) trivialOracle [w1, w2]] := by
  have hd : distLt (calculate_centroid w1.coords) (calculate_centroid w2.coords)
      (minimalCfg 15).mergeDistance = true := by
    simp only [distLt, Bool.and_eq_true, decide_eq_true_eq]
    constructor
    · norm_num [minimalCfg]
    · norm_num [minimalCfg, w1, w2, calculate_centroid, calculate_distance_sq]
  constructor
  · exact (c1_barrier_blocking (minimalCfg 15) trivialOracle w1 w2
      (fun _ _ => true) (by norm_num [minimalCfg]) hd).1 rfl
  · exact ((c1_barrier_blocking (minimalCfg 15) trivialOracle w1 w2
      (fun _ _ => false) (by norm_num [minimalCfg]) hd).2 rfl).1

end BuildingMerger

namespace BuildingMerger

open GeometryUtils ArtisticEffects

/-- Specification of one candidate scan: it pushes some duplicate-free batch
of previously unvisited indices drawn from the indexed list, marks exactly
those visited, and touches nothing else. -/
theorem scanAll_spec (idx : List (ℕ × Pt × Building)) (cur : Pt) (m : ℚ)
    (blocked : Pt → Pt → Bool) :
    ∀ (stack : List ℕ) (vis : Finset ℕ),
      ∃ Δ : List ℕ,
        scanAll idx cur m blocked (stack, vis) =
          (Δ.reverse ++ stack, vis ∪ Δ.toFinset) ∧
        Δ.Nodup ∧ (∀ j ∈ Δ, j ∉ vis ∧ j ∈ idxSet idx) := by
  induction idx with
  | nil =>
      intro stack vis
      exact ⟨[], by simp [scanAll], by simp, by simp⟩
  | cons e es ih =>
      intro stack vis
      have hstep : scanAll (e :: es) cur m blocked (stack, vis) =
          scanAll es cur m blocked (scanStep cur m blocked (stack, vis) e) := by
        simp [scanAll]
      rcases scanStep_spec cur m blocked (stack, vis) e with h | ⟨hmem, h⟩
      · obtain ⟨Δ, h1, h2, h3⟩ := ih stack vis
        refine ⟨Δ, ?_, h2, ?_⟩
        · rw [hstep, h]
          exact h1
        · intro j hj
          obtain ⟨hj1, hj2⟩ := h3 j hj
          refine ⟨hj1, ?_⟩
          simp only [idxSet, List.map_cons, List.toFinset_cons, Finset.mem_insert]
          exact Or.inr (by simpa [idxSet] using hj2)
      · obtain ⟨Δ, h1, h2, h3⟩ := ih (e.1 :: stack) (insert e.1 vis)
        refine ⟨e.1 :: Δ, ?_, ?_, ?_⟩
        · rw [hstep, h, h1]
          simp only [Prod.mk.injEq]
          constructor
          · simp
          · ext a
            simp only [Finset.mem_union, Finset.mem_insert, List.toFinset_cons,
              List.mem_toFinset]
            tauto
        · refine List.nodup_cons.mpr ⟨?_, h2⟩
          intro hc
          exact (h3 e.1 hc).1 (Finset.mem_insert_self _ _)
        · intro j hj
          rcases List.mem_cons.mp hj with h' | h'
          · subst h'
            refine ⟨by simpa using hmem, ?_⟩
            simp [idxSet]
          · obtain ⟨hj1, hj2⟩ := h3 j h'
            refine ⟨fun hc => hj1 (Finset.mem_insert_of_mem hc), ?_⟩
            simp only [idxSet, List.map_cons, List.toFinset_cons, Finset.mem_insert]
            exact Or.inr (by simpa [idxSet] using hj2)

end BuildingMerger

namespace BuildingMerger

/-- Content specification of the cluster-building loop: starting from a
duplicate-free stack of already-visited indices, it returns the cluster
extended by the buildings of a duplicate-free index list `L` consisting of
the stack plus exactly the indices it newly visited, and the visited set
only grows, staying inside the index set. -/
theorem buildClusterAux_spec (idx : List (ℕ × Pt × Building)) (m : ℚ)
    (blocked : Pt → Pt → Bool) (stack : List ℕ) (vis : Finset ℕ)
    (cl : List Building) :
    stack.Nodup → (∀ i ∈ stack, i ∈ vis) →
      ∃ L : List ℕ,
        (buildClusterAux idx m blocked stack vis cl).1 =
          cl ++ L.map (fun i => (idx.getD i (0, (0, 0), default)).2.2) ∧
        L.Nodup ∧
        L.toFinset =
          stack.toFinset ∪ ((buildClusterAux idx m blocked stack vis cl).2 \ vis) ∧
        vis ⊆ (buildClusterAux idx m blocked stack vis cl).2 ∧
        (buildClusterAux idx m blocked stack vis cl).2 ⊆ vis ∪ idxSet idx := by
  induction stack, vis, cl using buildClusterAux.induct idx m blocked with
  | case1 vis cl =>
      intro _ _
      rw [buildClusterAux]
      exact ⟨[], by simp, by simp, by simp, Finset.Subset.refl _, by simp⟩
  | case2 i rest vis cl e ih =>
      intro hnd hsub
      have he : e = idx.getD i (0, (0, 0), default) := rfl
      rw [he] at ih
      obtain ⟨Δ, hscan, hΔnd, hΔmem⟩ :=
        scanAll_spec idx (idx.getD i (0, (0, 0), default)).2.1 m blocked rest vis
      have hrest_nd : rest.Nodup := (List.nodup_cons.mp hnd).2
      have hi_rest : i ∉ rest := (List.nodup_cons.mp hnd).1
      have hi_vis : i ∈ vis := hsub i (List.mem_cons_self _ _)
      have hstack1_nd : (Δ.reverse ++ rest).Nodup := by
        refine List.Nodup.append (List.nodup_reverse.mpr hΔnd) hrest_nd ?_
        intro a ha hb
        have := (hΔmem a (List.mem_reverse.mp ha)).1
        exact this (hsub a (List.mem_cons_of_mem _ hb))
      have hstack1_sub : ∀ j ∈ Δ.reverse ++ rest, j ∈ vis ∪ Δ.toFinset := by
        intro j hj
        rcases List.mem_append.mp hj with h' | h'
        · exact Finset.mem_union.mpr (Or.inr (List.mem_toFinset.mpr
            (List.mem_reverse.mp h')))
        · exact Finset.mem_union.mpr (Or.inl (hsub j (List.mem_cons_of_mem _ h')))
      rw [hscan] at ih
      obtain ⟨L, ih1, ih2, ih3, ih4, ih5⟩ := ih hstack1_nd hstack1_sub
      have hrw : buildClusterAux idx m blocked (i :: rest) vis cl =
          buildClusterAux idx m blocked (Δ.reverse ++ rest) (vis ∪ Δ.toFinset)
            (cl ++ [(idx.getD i (0, (0, 0), default)).2.2]) := by
        rw [buildClusterAux, hscan]
      rw [hrw]
      set r := buildClusterAux idx m blocked (Δ.reverse ++ rest)
        (vis ∪ Δ.toFinset) (cl ++ [(idx.getD i (0, (0, 0), default)).2.2]) with hr
      refine ⟨i :: L, ?_, ?_, ?_, ?_, ?_⟩
      · rw [ih1]
        simp
      · refine List.nodup_cons.mpr ⟨?_, ih2⟩
        intro hc
        have := ih3 ▸ List.mem_toFinset.mpr hc
        rcases Finset.mem_union.mp this with h' | h'
        · rcases List.mem_toFinset.mp h' |> List.mem_append.mp with h'' | h''
          · exact (hΔmem i (List.mem_reverse.mp h'')).1 hi_vis
          · exact hi_rest h''
        · have := Finset.mem_sdiff.mp h'
          exact this.2 (Finset.mem_union.mpr (Or.inl hi_vis))
      · have hsplit : r.2 \ vis = (r.2 \ (vis ∪ Δ.toFinset)) ∪ Δ.toFinset := by
          ext a
          simp only [Finset.mem_sdiff, Finset.mem_union]
          constructor
          · intro ⟨ha1, ha2⟩
            by_cases hΔ : a ∈ Δ.toFinset
            · exact Or.inr hΔ
            · exact Or.inl ⟨ha1, fun hc => hc.elim ha2 hΔ⟩
          · intro h'
            rcases h' with ⟨ha1, ha2⟩ | ha
            · exact ⟨ha1, fun hc => ha2 (Or.inl hc)⟩
            · refine ⟨ih4 (Finset.mem_union.mpr (Or.inr ha)), ?_⟩
              intro hc
              exact (hΔmem a (List.mem_toFinset.mp ha)).1 hc
        ext a
        simp only [List.toFinset_cons, Finset.mem_insert, ih3, hsplit,
          List.toFinset_append, List.toFinset_reverse, Finset.mem_union,
          Finset.mem_sdiff, List.mem_toFinset]
        tauto
      · exact fun a ha => ih4 (Finset.mem_union.mpr (Or.inl ha))
      · refine ih5.trans ?_
        intro a ha
        rcases Finset.mem_union.mp ha with h' | h'
        · rcases Finset.mem_union.mp h' with h'' | h''
          · exact Finset.mem_union.mpr (Or.inl h'')
          · exact Finset.mem_union.mpr (Or.inr
              ((hΔmem a (List.mem_toFinset.mp h'')).2))
        · exact Finset.mem_union.mpr (Or.inr h')

end BuildingMerger

namespace BuildingMerger

/-- Building lookup by index in an indexed building list. -/
def lookupB (idx : List (ℕ × Pt × Building)) (i : ℕ) : Building :=
  (idx.getD i (0, (0, 0), default)).2.2

/-- The step function of the outer loop of `_merge_by_distance` (named for
the proofs below; definitionally the `for` body: visited roots are skipped,
every other root grows a cluster which is merged and appended). -/
def mergeFoldF (cfg : ArtisticEffects.StyleCfg) (O : ArtisticEffects.HullOracle)
    (idx : List (ℕ × Pt × Building)) (m : ℚ) (blocked : Pt → Pt → Bool)
    (st : Finset ℕ × List Building) (e : ℕ × Pt × Building) :
    Finset ℕ × List Building :=
  if e.1 ∈ st.1 then st
  else
    let r := build_cluster e.1 idx st.1 m blocked
    (r.2, st.2 ++ [merge_cluster cfg O r.1])

/-- Invariant-carrying specification of the outer loop of
`_merge_by_distance`: the produced clusters are the merges of a list of
pairwise-disjoint, duplicate-free, nonempty index lists whose union is
exactly the visited set; the visited set only grows within the index set
and ends up containing every processed root. -/
theorem mergeFold_spec (cfg : ArtisticEffects.StyleCfg)
    (O : ArtisticEffects.HullOracle) (idx : List (ℕ × Pt × Building)) (m : ℚ)
    (blocked : Pt → Pt → Bool) :
    ∀ (es : List (ℕ × Pt × Building)) (vis : Finset ℕ) (outs : List Building)
      (Ls : List (List ℕ)),
      (∀ e ∈ es, e.1 ∈ idxSet idx) →
      outs = Ls.map (fun L => merge_cluster cfg O (L.map (lookupB idx))) →
      Ls.flatten.Nodup → Ls.flatten.toFinset = vis →
      (∀ L ∈ Ls, L ≠ []) → vis ⊆ idxSet idx →
      ∃ Ls' : List (List ℕ),
        (es.foldl (mergeFoldF cfg O idx m blocked) (vis, outs)).2 =
          Ls'.map (fun L => merge_cluster cfg O (L.map (lookupB idx))) ∧
        Ls'.flatten.Nodup ∧
        Ls'.flatten.toFinset =
          (es.foldl (mergeFoldF cfg O idx m blocked) (vis, outs)).1 ∧
        (∀ L ∈ Ls', L ≠ []) ∧
        (es.foldl (mergeFoldF cfg O idx m blocked) (vis, outs)).1 ⊆ idxSet idx ∧
        vis ⊆ (es.foldl (mergeFoldF cfg O idx m blocked) (vis, outs)).1 ∧
        ∀ e ∈ es, e.1 ∈
          (es.foldl (mergeFoldF cfg O idx m blocked) (vis, outs)).1 := by
  intro es
  induction es with
  | nil =>
      intro vis outs Ls _ houts hnd hset hne hsub
      exact ⟨Ls, by simpa using houts, hnd, by simpa using hset, hne,
        by simpa using hsub, Finset.Subset.refl _, by simp⟩
  | cons e es ih =>
      intro vis outs Ls hmem houts hnd hset hne hsub
      simp only [List.foldl_cons]
      by_cases hin : e.1 ∈ vis
      · have hstep : mergeFoldF cfg O idx m blocked (vis, outs) e = (vis, outs) := by
          unfold mergeFoldF
          rw [if_pos hin]
        rw [hstep]
        obtain ⟨Ls', h1, h2, h3, h4, h5, h6, h7⟩ :=
          ih vis outs Ls (fun a ha => hmem a (List.mem_cons_of_mem _ ha))
            houts hnd hset hne hsub
        refine ⟨Ls', h1, h2, h3, h4, h5, h6, ?_⟩
        intro a ha
        rcases List.mem_cons.mp ha with h' | h'
        · subst h'
          exact h6 hin
        · exact h7 a h'
      · have hstep : mergeFoldF cfg O idx m blocked (vis, outs) e =
            ((build_cluster e.1 idx vis m blocked).2,
              outs ++ [merge_cluster cfg O
                (build_cluster e.1 idx vis m blocked).1]) := by
          unfold mergeFoldF
          rw [if_neg hin]
        rw [hstep]
        obtain ⟨L, hL1, hL2, hL3, hL4, hL5⟩ :=
          buildClusterAux_spec idx m blocked [e.1] (insert e.1 vis) []
            (by simp) (by simp)
        have hbc : build_cluster e.1 idx vis m blocked =
            buildClusterAux idx m blocked [e.1] (insert e.1 vis) [] := rfl
        set r := buildClusterAux idx m blocked [e.1] (insert e.1 vis) [] with hrdef
        have he_idx : e.1 ∈ idxSet idx := hmem e (List.mem_cons_self _ _)
        have hLset : L.toFinset = insert e.1 (r.2 \ insert e.1 vis) := by
          rw [hL3]
          ext a
          simp
        have he_r2 : e.1 ∈ r.2 := hL4 (Finset.mem_insert_self _ _)
        have hvis_r2 : vis ⊆ r.2 := fun a ha =>
          hL4 (Finset.mem_insert_of_mem ha)
        have hr2_idx : r.2 ⊆ idxSet idx := by
          refine hL5.trans ?_
          intro a ha
          rcases Finset.mem_union.mp ha with h' | h'
          · rcases Finset.mem_insert.mp h' with h'' | h''
            · exact h'' ▸ he_idx
            · exact hsub h''
          · exact h'
        have hflat2 : (Ls ++ [L]).flatten = Ls.flatten ++ L := by
          simp
        have hnd2 : (Ls ++ [L]).flatten.Nodup := by
          rw [hflat2]
          refine List.Nodup.append hnd hL2 ?_
          intro a ha hb
          have hav : a ∈ vis := hset ▸ List.mem_toFinset.mpr ha
          have := hLset ▸ List.mem_toFinset.mpr hb
          rcases Finset.mem_insert.mp this with h' | h'
          · exact hin (h' ▸ hav)
          · exact (Finset.mem_sdiff.mp h').2 (Finset.mem_insert_of_mem hav)
        have hset2 : (Ls ++ [L]).flatten.toFinset = r.2 := by
          rw [hflat2]
          ext a
          simp only [List.toFinset_append, Finset.mem_union, List.mem_toFinset]
          constructor
          · intro h'
            rcases h' with h' | h'
            · exact hvis_r2 (hset ▸ List.mem_toFinset.mpr h')
            · have := hLset ▸ List.mem_toFinset.mpr h'
              rcases Finset.mem_insert.mp this with h'' | h''
              · exact h'' ▸ he_r2
              · exact (Finset.mem_sdiff.mp h'').1
          · intro h'
            by_cases hv : a ∈ insert e.1 vis
            · rcases Finset.mem_insert.mp hv with h'' | h''
              · right
                refine List.mem_toFinset.mp ?_
                rw [hLset]
                exact h'' ▸ Finset.mem_insert_self _ _
              · left
                exact List.mem_toFinset.mp (hset ▸ h'')
            · right
              refine List.mem_toFinset.mp ?_
              rw [hLset]
              exact Finset.mem_insert_of_mem (Finset.mem_sdiff.mpr ⟨h', hv⟩)
        have hne2 : ∀ L' ∈ Ls ++ [L], L' ≠ [] := by
          intro L' hL'
          rcases List.mem_append.mp hL' with h' | h'
          · exact hne L' h'
          · rw [List.mem_singleton.mp h']
            intro hc
            rw [hc] at hLset
            have h0 := hLset.symm
            simp only [List.toFinset_nil] at h0
            exact Finset.insert_ne_empty _ _ h0
        have houts2 : outs ++ [merge_cluster cfg O r.1] =
            (Ls ++ [L]).map (fun L => merge_cluster cfg O (L.map (lookupB idx))) := by
          rw [houts, List.map_append]
          congr 1
          simp only [List.map_cons, List.map_nil]
          rw [hL1]
          simp only [List.nil_append]
          rfl
        obtain ⟨Ls', h1, h2, h3, h4, h5, h6, h7⟩ :=
          ih r.2 (outs ++ [merge_cluster cfg O r.1]) (Ls ++ [L])
            (fun a ha => hmem a (List.mem_cons_of_mem _ ha))
            houts2 hnd2 hset2 hne2 hr2_idx
        refine ⟨Ls', h1, h2, h3, h4, h5, ?_, ?_⟩
        · exact (hvis_r2.trans h6)
        · intro a ha
          rcases List.mem_cons.mp ha with h' | h'
          · subst h'
            exact h6 he_r2
          · exact h7 a h'

end BuildingMerger

namespace BuildingMerger

theorem indexBuildings_length (bs : List Building) :
    (indexBuildings bs).length = bs.length := by
  simp [indexBuildings]

theorem idxSet_indexBuildings (bs : List Building) :
    idxSet (indexBuildings bs) = (List.range bs.length).toFinset := by
  unfold idxSet indexBuildings
  rw [List.map_map]
  have : (Prod.fst ∘ fun e : ℕ × Building =>
      (e.1, GeometryUtils.calculate_centroid e.2.coords, e.2)) = Prod.fst := by
    funext e
    rfl
  rw [this, List.enum_map_fst]

theorem range_map_lookupB (bs : List Building) :
    (List.range bs.length).map (lookupB (indexBuildings bs)) = bs := by
  apply List.ext_getElem
  · simp
  · intro i h1 h2
    simp only [List.getElem_map, List.getElem_range]
    unfold lookupB
    rw [List.getD_eq_getElem _ _ (by rw [indexBuildings_length]; exact h2)]
    unfold indexBuildings
    simp

/-- C10: in distance mode with positive `merge_distance`, the produced
clusters partition the input footprints.  The output is the merge of a list
of raw clusters whose concatenation is a permutation of the input buildings
(every footprint in exactly one cluster, none dropped or duplicated), every
raw cluster is nonempty, and the cluster sizes sum to the input length. -/
theorem c10_distance_clusters_partition (cfg : ArtisticEffects.StyleCfg)
    (O : ArtisticEffects.HullOracle) (buildings : List Building)
    (blocked : Pt → Pt → Bool) (hm : 0 < cfg.mergeDistance) :
    ∃ cs : List (List Building),
      merge_by_distance cfg O buildings blocked = cs.map (merge_cluster cfg O) ∧
      cs.flatten.Perm buildings ∧
      (∀ c ∈ cs, c ≠ []) ∧
      (cs.map List.length).sum = buildings.length := by
  have hM : merge_by_distance cfg O buildings blocked =
      ((indexBuildings buildings).foldl
        (mergeFoldF cfg O (indexBuildings buildings) cfg.mergeDistance blocked)
        (∅, [])).2 := by
    unfold merge_by_distance
    rw [if_neg (not_le.mpr hm)]
    rfl
  obtain ⟨Ls', h1, h2, h3, h4, h5, h6, h7⟩ :=
    mergeFold_spec cfg O (indexBuildings buildings) cfg.mergeDistance blocked
      (indexBuildings buildings) ∅ [] []
      (fun e he => List.mem_toFinset.mpr (List.mem_map.mpr ⟨e, he, rfl⟩))
      rfl (by simp) (by simp) (by simp) (by simp)
  have hvisEq : ((indexBuildings buildings).foldl
      (mergeFoldF cfg O (indexBuildings buildings) cfg.mergeDistance blocked)
      (∅, [])).1 = idxSet (indexBuildings buildings) := by
    apply Finset.Subset.antisymm h5
    intro a ha
    obtain ⟨e, he, hfst⟩ := List.mem_map.mp (List.mem_toFinset.mp ha)
    exact hfst ▸ h7 e he
  have hperm : (Ls'.flatten.map (lookupB (indexBuildings buildings))).Perm
      buildings := by
    have hp : Ls'.flatten.Perm (List.range buildings.length) := by
      apply List.perm_of_nodup_nodup_toFinset_eq h2 (List.nodup_range _)
      rw [h3, hvisEq, idxSet_indexBuildings]
    have := hp.map (lookupB (indexBuildings buildings))
    rwa [range_map_lookupB] at this
  refine ⟨Ls'.map (fun L => L.map (lookupB (indexBuildings buildings))),
    ?_, ?_, ?_, ?_⟩
  · rw [hM, h1, List.map_map]
    rfl
  · rw [← List.map_flatten]
    exact hperm
  · intro c hc
    obtain ⟨L, hL, hLc⟩ := List.mem_map.mp hc
    rw [← hLc]
    simpa using h4 L hL
  · have hlen : (Ls'.map (fun L =>
        L.map (lookupB (indexBuildings buildings)))).flatten.length =
        buildings.length := by
      rw [← List.map_flatten]
      exact hperm.length_eq
    rw [← hlen, List.length_flatten]

end BuildingMerger

/-- Witness for C10: the partition at a concrete two-footprint run. -/
theorem c10_distance_clusters_partition_witness :
    ∃ cs : List (List Building),
      BuildingMerger.merge_by_distance (minimalCfg 15) trivialOracle [w1, w2]
          (fun _ _ => false) =
        cs.map (BuildingMerger.merge_cluster (minimalCfg 15) trivialOracle) ∧
      cs.flatten.Perm [w1, w2] ∧
      (∀ c ∈ cs, c ≠ []) ∧
      (cs.map List.length).sum = 2 :=
  BuildingMerger.c10_distance_clusters_partition (minimalCfg 15) trivialOracle
    [w1, w2] (fun _ _ => false) (by norm_num [minimalCfg])

/-- A large non-convex member footprint (a slit annulus: three far vertices
interleaved in angle with three vertices near the origin), shoelace area
8875. -/
def cexA : Building :=
  { coords := [(100, 0), (-50, 90), (-50, -90), (5, -10), (-10, 0), (5, 10)],
    height := 5 }

/-- A tiny second footprint sitting in the hole of `cexA`. -/
def cexB : Building := { coords := [(3, 0), (4, 0), (3, 1)], height := 7 }

/-- Counterexample for C6: in distance mode (minimal style, detail level
0.3 so the hull is the bare angular sort), merging `cexA` with `cexB` emits
a cluster polygon of shoelace area 3855/2, strictly below the area 8875 of
its largest member: the angular re-sort around the combined centroid turns
the annulus into a thin six-pointed star.  The claimed inequality `cluster
area ≥ largest member area` is therefore false for the distance merger. -/
theorem c6_counterexample :
    BuildingMerger.merge_by_distance (minimalCfg 500) trivialOracle
        [cexA, cexB] (fun _ _ => false) =
      [BuildingMerger.merge_cluster (minimalCfg 500) trivialOracle [cexA, cexB]] ∧
    GeometryUtils.calculate_polygon_area
      ((BuildingMerger.merge_cluster (minimalCfg 500) trivialOracle
        [cexA, cexB]).coords) = 3855 / 2 ∧
    GeometryUtils.calculate_polygon_area cexA.coords = 8875 ∧
    ¬ (GeometryUtils.calculate_polygon_area cexA.coords ≤
        GeometryUtils.calculate_polygon_area
          ((BuildingMerger.merge_cluster (minimalCfg 500) trivialOracle
            [cexA, cexB]).coords)) := by
  have harea : GeometryUtils.calculate_polygon_area
      ((BuildingMerger.merge_cluster (minimalCfg 500) trivialOracle
        [cexA, cexB]).coords) = 3855 / 2 := by
    norm_num [BuildingMerger.merge_cluster, ArtisticEffects.create_artistic_hull,
      ArtisticEffects.sortPointsByAngle, ArtisticEffects.insertByAngle,
      ArtisticEffects.angLt, ArtisticEffects.angClass, ArtisticEffects.cross2,
      ArtisticEffects.generateHullPoints, ArtisticEffects.addArtisticVariation,
      GeometryUtils.calculate_centroid, GeometryUtils.calculate_polygon_area,
      GeometryUtils.shoelaceSum, minimalCfg, trivialOracle, cexA, cexB,
      List.range_succ]
  have hareaA : GeometryUtils.calculate_polygon_area cexA.coords = 8875 := by
    norm_num [GeometryUtils.calculate_polygon_area, GeometryUtils.shoelaceSum,
      cexA]
  have hd : GeometryUtils.distLt (GeometryUtils.calculate_centroid cexA.coords)
      (GeometryUtils.calculate_centroid cexB.coords)
      (minimalCfg 500).mergeDistance = true := by
    simp only [GeometryUtils.distLt, Bool.and_eq_true, decide_eq_true_eq]
    constructor
    · norm_num [minimalCfg]
    · norm_num [minimalCfg, cexA, cexB, GeometryUtils.calculate_centroid,
        GeometryUtils.calculate_distance_sq]
  refine ⟨?_, harea, hareaA, ?_⟩
  · exact ((BuildingMerger.c1_barrier_blocking (minimalCfg 500) trivialOracle
      cexA cexB (fun _ _ => false) (by norm_num [minimalCfg]) hd).2 rfl).1
  · rw [harea, hareaA]
    norm_num

namespace BlockCombiner

variable {G : Type}

/-- Area bound through the force-merge step: if closing, part-unioning and
convex hull never shrink the area (true of the shapely operations they
embed), neither does `forceMerge`. -/
theorem forceMerge_area_ge (K : GeoKernel G) (m : ℚ)
    (hBuf : ∀ u d, K.area u ≤ K.area (K.buffer (K.buffer u d) (-d)))
    (hParts : ∀ u, K.area u ≤ K.area (K.unionParts u))
    (hHull : ∀ u, K.area u ≤ K.area (K.convexHull u)) (u : G) :
    K.area u ≤ K.area (forceMerge K m u) := by
  unfold forceMerge
  by_cases h1 : K.geomIsPolygon (K.buffer (K.buffer u (m * (1 / 2))) (-(m * (1 / 2)))) = false
  · rw [if_pos h1]
    by_cases h2 : K.geomIsPolygon (K.unionParts
        (K.buffer (K.buffer u (m * (1 / 2))) (-(m * (1 / 2))))) = false
    · rw [if_pos h2]
      exact (hBuf u _).trans ((hParts _).trans (hHull _))
    · rw [if_neg h2]
      exact (hBuf u _).trans (hParts _)
  · rw [if_neg h1]
    exact hBuf u _

/-- C6 (amended): in area-threshold mode, provided the geometric kernel's
union / make-valid, buffer closing, part union, convex hull and
exterior-ring extraction never produce a shape of smaller area than their
input (true of the shapely operations they embed), every member footprint
of a grown cluster has polygon area at most the shoelace area of the
emitted cluster polygon; in distance mode the inequality fails
(`c6_counterexample`). -/
theorem c6_area_mode_cluster_area_ge_members {P : Type} (K : GeoKernel G)
    (barrier : Option G) (m T : ℚ) (small : List (Footprint G))
    (s₀ : GrowState G)
    (hU : ∀ u p, K.area u ≤ K.area (K.makeValid (K.union2 u p)) ∧
      K.area p ≤ K.area (K.makeValid (K.union2 u p)))
    (hBuf : ∀ u d, K.area u ≤ K.area (K.buffer (K.buffer u d) (-d)))
    (hParts : ∀ u, K.area u ≤ K.area (K.unionParts u))
    (hHull : ∀ u, K.area u ≤ K.area (K.convexHull u))
    (hRing : ∀ g, K.area g ≤ GeometryUtils.calculate_polygon_area (K.exteriorRing g))
    (hInv : ∀ fp ∈ s₀.cluster, K.area fp.polygon ≤ K.area s₀.clusterUnion)
    (roofName : P → String) (roof : P) :
    ∀ fp ∈ (growClusterAux K barrier m T small s₀).cluster,
      K.area fp.polygon ≤
        GeometryUtils.calculate_polygon_area
          (finishSmallCluster K m (growClusterAux K barrier m T small s₀)
            roofName roof).coords := by
  have habsorb : ∀ (st : GrowState G × Bool) (e : ℕ × Footprint G),
      (∀ fp ∈ st.1.cluster, K.area fp.polygon ≤ K.area st.1.clusterUnion) →
      ∀ fp ∈ (absorbStep K barrier m st e).1.cluster,
        K.area fp.polygon ≤ K.area (absorbStep K barrier m st e).1.clusterUnion := by
    intro st e h
    unfold absorbStep
    split
    · exact h
    · split
      · intro fp hfp
        simp only [List.mem_append, List.mem_singleton] at hfp
        rcases hfp with h' | h'
        · exact (h fp h').trans (hU st.1.clusterUnion e.2.polygon).1
        · rw [h']
          exact (hU st.1.clusterUnion e.2.polygon).2
      · exact h
  have hscan : ∀ s : GrowState G,
      (∀ fp ∈ s.cluster, K.area fp.polygon ≤ K.area s.clusterUnion) →
      ∀ fp ∈ (scanSmall K barrier m small s).1.cluster,
        K.area fp.polygon ≤ K.area (scanSmall K barrier m small s).1.clusterUnion := by
    intro s hs
    unfold scanSmall
    have hgen : ∀ (es : List (ℕ × Footprint G)) (st : GrowState G × Bool),
        (∀ fp ∈ st.1.cluster, K.area fp.polygon ≤ K.area st.1.clusterUnion) →
        ∀ fp ∈ (es.foldl (absorbStep K barrier m) st).1.cluster,
          K.area fp.polygon ≤
            K.area (es.foldl (absorbStep K barrier m) st).1.clusterUnion := by
      intro es
      induction es with
      | nil => intro st h; exact h
      | cons e es ih =>
          intro st h
          simp only [List.foldl_cons]
          exact ih _ (habsorb st e h)
    exact hgen small.enum (s, false) hs
  have hgrow := growClusterAux_inv K barrier m T small
    (fun s => ∀ fp ∈ s.cluster, K.area fp.polygon ≤ K.area s.clusterUnion)
    hscan s₀ hInv
  intro fp hfp
  have h1 : K.area fp.polygon ≤
      K.area (growClusterAux K barrier m T small s₀).clusterUnion :=
    hgrow fp hfp
  set s := growClusterAux K barrier m T small s₀ with hs
  have hfc : (finishSmallCluster K m s roofName roof).coords =
      if K.geomIsPolygon (if K.geomIsPolygon s.clusterUnion = false
          then forceMerge K m s.clusterUnion else s.clusterUnion) = true
      then K.exteriorRing (if K.geomIsPolygon s.clusterUnion = false
          then forceMerge K m s.clusterUnion else s.clusterUnion)
      else K.exteriorRing (K.convexHull (if K.geomIsPolygon s.clusterUnion = false
          then forceMerge K m s.clusterUnion else s.clusterUnion)) := by
    unfold finishSmallCluster
    by_cases hlen : 1 < s.cluster.length
    · simp only [hlen, if_true]
    · simp only [hlen, if_false]
  have hcoords : ∃ u2 : G,
      (K.area s.clusterUnion ≤ K.area u2 ∧
        (finishSmallCluster K m s roofName roof).coords = K.exteriorRing u2) ∨
      (K.area s.clusterUnion ≤ K.area u2 ∧
        (finishSmallCluster K m s roofName roof).coords =
          K.exteriorRing (K.convexHull u2)) := by
    rw [hfc]
    set u := if K.geomIsPolygon s.clusterUnion = false
        then forceMerge K m s.clusterUnion else s.clusterUnion with hu
    have hle : K.area s.clusterUnion ≤ K.area u := by
      rw [hu]
      by_cases hpoly : K.geomIsPolygon s.clusterUnion = false
      · rw [if_pos hpoly]
        exact forceMerge_area_ge K m hBuf hParts hHull _
      · rw [if_neg hpoly]
    by_cases h2 : K.geomIsPolygon u = true
    · exact ⟨u, Or.inl ⟨hle, by rw [if_pos h2]⟩⟩
    · exact ⟨u, Or.inr ⟨hle, by rw [if_neg h2]⟩⟩
  obtain ⟨u2, hcase⟩ := hcoords
  rcases hcase with ⟨hle, hco⟩ | ⟨hle, hco⟩
  · rw [hco]
    exact h1.trans (hle.trans (hRing u2))
  · rw [hco]
    exact h1.trans (hle.trans ((hHull u2).trans (hRing (K.convexHull u2))))

end BlockCombiner

/-- An area-ordered kernel over `ℚ`: a geometry is represented by its area,
union is `max`, buffers and repairs are the identity, and the exterior ring
of a shape of area `g` is a square of side `max g 1`.  It satisfies every
monotonicity hypothesis of the amended C6 theorem. -/
def areaKernel : GeoKernel ℚ where
  lineOf _ := some 0
  polygonOf cs :=
    if 3 ≤ cs.length then some (GeometryUtils.calculate_polygon_area cs) else none
  isValid _ := true
  isEmpty _ := false
  area g := g
  buffer g _ := g
  distance _ _ := 0
  centroid _ := (0, 0)
  union2 a b := max a b
  unionList gs := gs.foldr max 0
  unionParts g := g
  makeValid g := g
  geomIsPolygon _ := true
  geomIsMulti _ := false
  largestPart g := g
  convexHull g := g
  exteriorRing g := [(0, 0), (max g 1, 0), (max g 1, max g 1), (0, max g 1)]
  intersects _ _ := false

theorem areaKernel_ring (g : ℚ) :
    areaKernel.area g ≤
      GeometryUtils.calculate_polygon_area (areaKernel.exteriorRing g) := by
  have hval : GeometryUtils.calculate_polygon_area (areaKernel.exteriorRing g) =
      max g 1 * max g 1 := by
    show GeometryUtils.calculate_polygon_area
      [(0, 0), (max g 1, 0), (max g 1, max g 1), (0, max g 1)] = max g 1 * max g 1
    have hone : (0 : ℚ) ≤ max g 1 := le_trans zero_le_one (le_max_right g 1)
    unfold GeometryUtils.calculate_polygon_area GeometryUtils.shoelaceSum
    simp only [List.getLastD, List.getLast?, List.getLast, Option.getD,
      List.dropLast, List.zip, List.zipWith, List.foldl]
    rw [abs_of_nonpos (by nlinarith)]
    ring
  rw [hval]
  show g ≤ max g 1 * max g 1
  rcases le_or_lt g 1 with h | h
  · calc g ≤ 1 := h
      _ = 1 * 1 := by ring
      _ ≤ max g 1 * max g 1 := by
          have := le_max_right g 1
          nlinarith
  · have hg : max g 1 = g := max_eq_left h.le
    rw [hg]
    nlinarith

/-- Witness for the amended C6: a singleton grown cluster over the
area-ordered kernel. -/
theorem c6_area_mode_cluster_area_ge_members_witness :
    areaKernel.area (5 : ℚ) ≤
      GeometryUtils.calculate_polygon_area
        (BlockCombiner.finishSmallCluster areaKernel 5
          (BlockCombiner.growClusterAux areaKernel none 5 200 []
            (BlockCombiner.seedState 0 ⟨(5 : ℚ), 10, 5⟩ ∅))
          (fun _ : Unit => "flat") ()).coords := by
  have h := BlockCombiner.c6_area_mode_cluster_area_ge_members
    (P := Unit) areaKernel none 5 200 []
    (BlockCombiner.seedState 0 ⟨(5 : ℚ), 10, 5⟩ ∅)
    (fun u p => ⟨le_max_left u p, le_max_right u p⟩)
    (fun u d => le_refl u)
    (fun u => le_refl u)
    (fun u => le_refl u)
    areaKernel_ring
    (by
      intro fp hfp
      simp only [BlockCombiner.seedState, List.mem_singleton] at hfp
      rw [hfp]
      simp [BlockCombiner.seedState, areaKernel])
    (fun _ : Unit => "flat") ()
  exact h ⟨(5 : ℚ), 10, 5⟩ (by
    have hred : BlockCombiner.growClusterAux areaKernel none 5 200 []
        (BlockCombiner.seedState 0 ⟨(5 : ℚ), 10, 5⟩ ∅) =
        BlockCombiner.seedState 0 ⟨(5 : ℚ), 10, 5⟩ ∅ := by
      rw [BlockCombiner.growClusterAux]
      norm_num [BlockCombiner.scanSmall, BlockCombiner.seedState, areaKernel,
        List.enum]
    rw [hred]
    simp [BlockCombiner.seedState])

namespace BarrierProcessor

variable {G : Type}

/-- Road/railway collection of the distance-mode barrier builder
(`feature_processor/barrier_processor.py` `create_barrier_union`, duplicated
verbatim in `feature_processor.py`): each feature's `LineString` is buffered
and collected with no `try/except`, so a failing constructor propagates
(modelled as `Except.error`). -/
def collectBufferedLines (K : GeoKernel G) (buf : ℚ) :
    List Feat → Except Unit (List G)
  | [] => Except.ok []
  | f :: fs =>
      match K.lineOf f.coords with
      | none => Except.error ()
      | some line =>
          match collectBufferedLines K buf fs with
          | Except.error e => Except.error e
          | Except.ok rest => Except.ok (K.buffer line buf :: rest)

/-- Water collection of the distance-mode barrier builder: polygons are
collected with no buffer and no `try/except`. -/
def collectWaterPolys (K : GeoKernel G) : List Feat → Except Unit (List G)
  | [] => Except.ok []
  | f :: fs =>
      match K.polygonOf f.coords with
      | none => Except.error ()
      | some poly =>
          match collectWaterPolys K fs with
          | Except.error e => Except.error e
          | Except.ok rest => Except.ok (poly :: rest)

/-- Embeds the distance-mode `create_barrier_union (roads, railways, water,
road_buffer, railway_buffer)`: buffered roads, buffered railways, unbuffered
water, unioned; `None` when all lists are empty; any constructor exception
aborts the whole construction. -/
def create_barrier_union (K : GeoKernel G) (roads railways water : List Feat)
    (roadBuffer railwayBuffer : ℚ) : Except Unit (Option G) := do
  let rs ← collectBufferedLines K roadBuffer roads
  let ls ← collectBufferedLines K railwayBuffer railways
  let ws ← collectWaterPolys K water
  let gs := rs ++ ls ++ ws
  if gs.isEmpty then pure none else pure (some (K.unionList gs))

end BarrierProcessor

namespace BlockCombiner

/-- Closed form of the block-combine barrier union over the syntactic
kernel: roads of at least 2 points enter as lines buffered by
`road_width * 0.2`, water polygons of at least 3 points enter buffered by
exactly `1.5`, everything else is skipped. -/
theorem bc_create_barrier_union_term (fs : Features) (roadWidth : ℚ) :
    bc_create_barrier_union termKernel fs roadWidth =
      (let barriers :=
        fs.roads.filterMap (fun r =>
          if 2 ≤ r.coords.length
          then some (GTerm.buffer (GTerm.line r.coords) (roadWidth * (1 / 5)))
          else none) ++
        fs.water.filterMap (fun w =>
          if 3 ≤ w.coords.length
          then some (GTerm.buffer (GTerm.poly w.coords) (3 / 2))
          else none)
      if barriers.isEmpty then none else some (GTerm.unionL barriers)) := by
  have hroads : ∀ r : Feat, bcRoadGeom termKernel roadWidth r =
      (if 2 ≤ r.coords.length
       then some (GTerm.buffer (GTerm.line r.coords) (roadWidth * (1 / 5)))
       else none) := by
    intro r
    unfold bcRoadGeom
    by_cases h : 2 ≤ r.coords.length <;> simp [termKernel, h]
  have hwater : ∀ w : Feat, bcWaterGeom termKernel w =
      (if 3 ≤ w.coords.length
       then some (GTerm.buffer (GTerm.poly w.coords) (3 / 2))
       else none) := by
    intro w
    unfold bcWaterGeom
    by_cases h : 3 ≤ w.coords.length <;> simp [termKernel, h]
  unfold bc_create_barrier_union
  rw [List.filterMap_congr (fun r _ => hroads r),
    List.filterMap_congr (fun w _ => hwater w)]
  have hval : ∀ g : GTerm, (termKernel.isValid g = false) = False := by
    intro g
    simp [termKernel]
  have hul : termKernel.unionList = GTerm.unionL := rfl
  simp only [hval, if_false, hul]

end BlockCombiner

/-- Water feature used in the C7/C8 developments: a plain triangle. -/
def wFeatC7 : Feat := ⟨[(0, 0), (4, 0), (0, 4)], none⟩

/-- Feature set holding only the triangle water feature. -/
def fsC7 : Features := { water := [wFeatC7] }

/-- C7 counterexample: in distance mode the barrier builder
(`barrier_processor.create_barrier_union`) adds the water polygon to the
union exactly as constructed — the union member is `poly`, never a `buffer`
node, so water is NOT buffered by 1.5 in both merger modes. -/
theorem c7_counterexample :
    BarrierProcessor.create_barrier_union termKernel [] [] [wFeatC7] 2 2 =
      Except.ok (some (GTerm.unionL [GTerm.poly wFeatC7.coords])) ∧
    ∀ (g : GTerm) (d : ℚ), GTerm.poly wFeatC7.coords ≠ GTerm.buffer g d := by
  constructor
  · rfl
  · intro g d h
    exact GTerm.noConfusion h

/-- On success, the distance-mode water collection returns exactly the raw
(unbuffered) polygons of the water features, in order. -/
theorem collectWaterPolys_ok (water : List Feat) :
    ∀ ws : List GTerm,
      BarrierProcessor.collectWaterPolys termKernel water = Except.ok ws →
      ws = water.map (fun f => GTerm.poly f.coords) := by
  induction water with
  | nil =>
      intro ws h
      simp only [BarrierProcessor.collectWaterPolys, Except.ok.injEq] at h
      simp [h.symm]
  | cons f fs ih =>
      intro ws h
      unfold BarrierProcessor.collectWaterPolys at h
      by_cases h3 : 3 ≤ f.coords.length
      · rw [show termKernel.polygonOf f.coords = some (GTerm.poly f.coords) by
            simp [termKernel, h3]] at h
        cases hrec : BarrierProcessor.collectWaterPolys termKernel fs with
        | error e =>
            rw [hrec] at h
            cases h
        | ok rest =>
            rw [hrec] at h
            simp only [Except.ok.injEq] at h
            rw [h.symm, List.map_cons, ih rest hrec]
      · rw [show termKernel.polygonOf f.coords = none by
            simp [termKernel, h3]] at h
        cases h

/-- C7 (amended): water polygons with at least 3 points enter the
block-combine barrier union buffered by exactly `1.5`, while the
distance-mode barrier builder unions water polygons unbuffered. -/
theorem c7_water_buffer_amended (fs : Features) (roadWidth : ℚ) (w : Feat)
    (hw : w ∈ fs.water) (hlen : 3 ≤ w.coords.length)
    (water : List Feat) (ws : List GTerm)
    (hws : BarrierProcessor.collectWaterPolys termKernel water =
      Except.ok ws) :
    (∃ barriers : List GTerm,
        BlockCombiner.bc_create_barrier_union termKernel fs roadWidth =
          some (GTerm.unionL barriers) ∧
        GTerm.buffer (GTerm.poly w.coords) (3 / 2) ∈ barriers) ∧
    ws = water.map (fun f => GTerm.poly f.coords) := by
  refine ⟨?_, collectWaterPolys_ok water ws hws⟩
  refine ⟨fs.roads.filterMap (fun r =>
      if 2 ≤ r.coords.length
      then some (GTerm.buffer (GTerm.line r.coords) (roadWidth * (1 / 5)))
      else none) ++
    fs.water.filterMap (fun w2 =>
      if 3 ≤ w2.coords.length
      then some (GTerm.buffer (GTerm.poly w2.coords) (3 / 2))
      else none), ?_, ?_⟩
  · rw [BlockCombiner.bc_create_barrier_union_term]
    dsimp only
    rw [if_neg ?_]
    have hmem : GTerm.buffer (GTerm.poly w.coords) (3 / 2) ∈
        fs.water.filterMap (fun w2 =>
          if 3 ≤ w2.coords.length
          then some (GTerm.buffer (GTerm.poly w2.coords) (3 / 2))
          else none) :=
      List.mem_filterMap.mpr ⟨w, hw, by rw [if_pos hlen]⟩
    have hne : (fs.roads.filterMap (fun r =>
        if 2 ≤ r.coords.length
        then some (GTerm.buffer (GTerm.line r.coords) (roadWidth * (1 / 5)))
        else none) ++
      fs.water.filterMap (fun w2 =>
        if 3 ≤ w2.coords.length
        then some (GTerm.buffer (GTerm.poly w2.coords) (3 / 2))
        else none)) ≠ [] :=
      List.ne_nil_of_mem (List.mem_append.mpr (Or.inr hmem))
    simpa using hne
  · exact List.mem_append.mpr
      (Or.inr (List.mem_filterMap.mpr ⟨w, hw, by rw [if_pos hlen]⟩))

/-- Witness for the amended C7 at the triangle water feature. -/
theorem c7_water_buffer_amended_witness :
    (∃ barriers : List GTerm,
        BlockCombiner.bc_create_barrier_union termKernel fsC7 2 =
          some (GTerm.unionL barriers) ∧
        GTerm.buffer (GTerm.poly wFeatC7.coords) (3 / 2) ∈ barriers) ∧
    [GTerm.poly wFeatC7.coords] =
      [wFeatC7].map (fun f => GTerm.poly f.coords) :=
  c7_water_buffer_amended fsC7 2 wFeatC7 (by simp [fsC7])
    (by simp [wFeatC7]) [wFeatC7] [GTerm.poly wFeatC7.coords] rfl

/-- A malformed road feature: a single point cannot form a `LineString`. -/
def badRoadC8 : Feat := ⟨[(0, 0)], none⟩

/-- C8 counterexample: the distance-mode barrier builder has no per-feature
exception handling, so one malformed road aborts the whole construction
(the `LineString` constructor exception propagates out). -/
theorem c8_counterexample :
    BarrierProcessor.create_barrier_union termKernel [badRoadC8] [] [wFeatC7]
        2 2 =
      Except.error () := by
  rfl

/-- Restricting a list to the guard of a guarded `filterMap` does not change
the result. -/
theorem filterMap_guard_filter {α β : Type} (p : α → Prop) [DecidablePred p]
    (g : α → β) :
    ∀ l : List α,
      (l.filter (fun a => decide (p a))).filterMap
          (fun a => if p a then some (g a) else none) =
        l.filterMap (fun a => if p a then some (g a) else none)
  | [] => rfl
  | a :: l => by
      by_cases h : p a <;>
        simp [List.filter_cons, List.filterMap_cons, h,
          filterMap_guard_filter p g l]

/-- C8 (amended): the block-combine barrier builder is total and skips
malformed features — dropping every road with fewer than 2 points and every
water feature with fewer than 3 points leaves its result unchanged — while
the distance-mode builder aborts on such features (see the counterexample).
-/
theorem c8_malformed_skipped (fs : Features) (roadWidth : ℚ) :
    BlockCombiner.bc_create_barrier_union termKernel
        { fs with
          roads := fs.roads.filter (fun r => decide (2 ≤ r.coords.length)),
          water := fs.water.filter (fun w => decide (3 ≤ w.coords.length)) }
        roadWidth =
      BlockCombiner.bc_create_barrier_union termKernel fs roadWidth := by
  rw [BlockCombiner.bc_create_barrier_union_term,
    BlockCombiner.bc_create_barrier_union_term]
  dsimp only
  rw [filterMap_guard_filter (fun r : Feat => 2 ≤ r.coords.length)
      (fun r : Feat => GTerm.buffer (GTerm.line r.coords) (roadWidth * (1 / 5)))
      fs.roads,
    filterMap_guard_filter (fun w : Feat => 3 ≤ w.coords.length)
      (fun w : Feat => GTerm.buffer (GTerm.poly w.coords) (3 / 2))
      fs.water]

/-- Roof parameter record emitted by `_select_roof_style`: one constructor
per roof style name, holding that style's numeric parameter. -/
inductive RoofParams where
  | pitched (heightFactor : ℚ)
  | tiered (levels : ℤ)
  | flat (border : ℚ)
  | sawtooth (angle : ℤ)
  | modern (setback : ℚ)
  | stepped (levels : ℤ)
  | complexVar (variations : ℤ)
deriving Repr

/-- The mutable numeric fields of `BlockCombiner.BLOCK_TYPES`: the Python
dicts inside `roof_styles` are shared objects, and `_select_roof_style`
writes its randomized parameters back into them, so they persist across
calls.  Field defaults are the constructor literals of `__init__`. -/
structure BlockTypesState where
  resPitchedHF : ℚ := 3 / 10
  resTieredLevels : ℤ := 2
  resFlatBorder : ℚ := 1
  indSawtoothAngle : ℤ := 30
  indFlatBorder : ℚ := 2
  indSteppedLevels : ℤ := 2
  comModernSetback : ℚ := 2
  comTieredLevels : ℤ := 2
  comComplexVariations : ℤ := 5
deriving Repr, DecidableEq

/-- Embeds `BlockCombiner._select_roof_style(block_type)`: `choice` is the
index drawn by `random.choice(styles)`, `u` the `random.uniform` draw and
`r` the `random.randint` draw of the taken branch.  Every branch that
randomizes a parameter assigns the result back into the shared style dict
(`choice['height_factor'] *= ...` and friends), modelled by returning the
updated `BlockTypesState` alongside the emitted parameters; an unknown
block type falls back to the residential styles. -/
def selectRoofStyle (st : BlockTypesState) (blockType : String)
    (choice : Fin 3) (u : ℚ) (r : ℤ) : RoofParams × BlockTypesState :=
  if blockType = "industrial" then
    match choice.val with
    | 0 =>
        let a := max 10 (st.indSawtoothAngle + r)
        (RoofParams.sawtooth a, { st with indSawtoothAngle := a })
    | 1 =>
        let b := st.indFlatBorder * u
        (RoofParams.flat b, { st with indFlatBorder := b })
    | _ =>
        let l := max 2 (st.indSteppedLevels + r)
        (RoofParams.stepped l, { st with indSteppedLevels := l })
  else if blockType = "commercial" then
    match choice.val with
    | 0 =>
        let sb := st.comModernSetback * u
        (RoofParams.modern sb, { st with comModernSetback := sb })
    | 1 =>
        let l := max 1 (st.comTieredLevels + r)
        (RoofParams.tiered l, { st with comTieredLevels := l })
    | _ => (RoofParams.complexVar st.comComplexVariations, st)
  else
    match choice.val with
    | 0 =>
        let hf := st.resPitchedHF * u
        (RoofParams.pitched hf, { st with resPitchedHF := hf })
    | 1 =>
        let l := max 1 (st.resTieredLevels + r)
        (RoofParams.tiered l, { st with resTieredLevels := l })
    | _ =>
        let b := st.resFlatBorder * u
        (RoofParams.flat b, { st with resFlatBorder := b })

/-- C9: two successive residential `pitched` selections, each with the
legal uniform draw `u = 1.2 ∈ [0.8, 1.2]`, emit `height_factor`
`0.3·1.2·1.2 = 0.432`, outside the documented `±20%` band
`[0.24, 0.36]` around the nominal default `0.3`: the first call's
write-back into the shared `BLOCK_TYPES` dict compounds into the second
call. -/
theorem c9_roof_param_range_bug :
    ((4 : ℚ) / 5 ≤ 6 / 5 ∧ (6 : ℚ) / 5 ≤ 6 / 5) ∧
    (selectRoofStyle
        (selectRoofStyle {} "residential" 0 (6 / 5) 0).2
        "residential" 0 (6 / 5) 0).1 =
      RoofParams.pitched (54 / 125) ∧
    ¬((54 : ℚ) / 125 ≤ (3 / 10) * (6 / 5)) := by
  refine ⟨⟨by norm_num, by norm_num⟩, ?_, by norm_num⟩
  have hs1 : ¬("residential" = "industrial") := by decide
  have hs2 : ¬("residential" = "commercial") := by decide
  norm_num [selectRoofStyle, if_neg hs1, if_neg hs2]
